import Mathlib

/-!
Verification of the news-llm pipeline (Quirky-AI-Labs/news-llm).

Shallow embedding of the Python sources under `newsllm/`:

* `Summarizer.normalize_text`, `Summarizer.extract_json`, `Summarizer.load_json`
  and `Summarizer.summarize` from `newsllm/services/summarizer/summarizer.py`;
* `BaseLLMProvider._check_model_exists` / `call` (with its tenacity retry
  wrapper) from `newsllm/services/summarizer/base.py`;
* `ProviderFactory.get_provider` from `newsllm/services/summarizer/llm_providers.py`;
* the channel classes from `newsllm/services/channel/`;
* the `News` record from `newsllm/structures.py`;
* `BaseScraper.scrape` / `ScraperFactory.scrape` from `newsllm/services/scraper/`;
* `SingletonMeta.__call__` from `newsllm/services/utils.py`;
* `ListQueue` and `RedisQueue` from `newsllm/services/queue/`.

Python strings are modelled as `List Char`, Python exceptions as an explicit
inductive type, fallible code as `Except`.
-/

namespace NewsLLM


/-! ### Python exceptions

The exception classes that the modelled code can raise.  `className` is the
Python class name, so "same kind of error" is `className` equality. -/

inductive PyExc where
  | modelNotFoundError (msg : String)
  | runtimeError (msg : String)
  | notImplementedError
  | attributeError (msg : String)
  | jsonDecodeError
  | retryError (last : PyExc)
  deriving Repr, DecidableEq

def PyExc.className : PyExc → String
  | .modelNotFoundError _ => "ModelNotFoundError"
  | .runtimeError _ => "RuntimeError"
  | .notImplementedError => "NotImplementedError"
  | .attributeError _ => "AttributeError"
  | .jsonDecodeError => "JSONDecodeError"
  | .retryError _ => "RetryError"

/-! ### Whitespace

`pySpace` models Python's `\s` character class (`re` with `str` input), which
is the set of Unicode whitespace characters; the same set backs `str.strip()`.
-/

def pySpace (c : Char) : Bool :=
  c = ' ' ∨ c = '\t' ∨ c = '\n' ∨ (0x0b ≤ c.toNat ∧ c.toNat ≤ 0x0d) ∨
  (0x1c ≤ c.toNat ∧ c.toNat ≤ 0x1f) ∨ c.toNat = 0x85 ∨ c.toNat = 0xa0 ∨
  c.toNat = 0x1680 ∨ (0x2000 ≤ c.toNat ∧ c.toNat ≤ 0x200a) ∨
  c.toNat = 0x2028 ∨ c.toNat = 0x2029 ∨ c.toNat = 0x202f ∨
  c.toNat = 0x205f ∨ c.toNat = 0x3000

/-- Model of `re.sub(r"(\s)\1+", r"\1", text)`: the regex scanner walks the
string left to right and, whenever a whitespace character is followed by a
copy of itself, drops the copy (the greedy `\1+` eats a whole run, which is
the same as dropping the duplicates one at a time). -/
def subWsRuns : List Char → List Char
  | [] => []
  | [a] => [a]
  | a :: b :: t =>
      if pySpace a ∧ a = b then subWsRuns (a :: t)
      else a :: subWsRuns (b :: t)
termination_by l => l.length
decreasing_by all_goals simp_arith

/-- Model of `str.strip()` with no argument: drop leading whitespace. -/
def dropLeadWs (l : List Char) : List Char := l.dropWhile pySpace

/-- Model of `str.strip()` with no argument: drop trailing whitespace. -/
def dropTrailWs (l : List Char) : List Char :=
  (l.reverse.dropWhile pySpace).reverse

/-- Model of `str.strip()` with no argument. -/
def pyStrip (l : List Char) : List Char := dropTrailWs (dropLeadWs l)

/-- `Summarizer.normalize_text` (summarizer.py lines 67-79):
`text = re.sub(r"(\s)\1+", r"\1", text); return text.strip()`. -/
def normalize_text (l : List Char) : List Char := pyStrip (subWsRuns l)

/-! Spec-side reformulation of the collapse step, written after the spec's
words: "collapse any run of repeated identical whitespace characters to a
single occurrence".  A whitespace character absorbs the run of its own
repeats that follows it; everything else is copied unchanged. -/

/-- Spec-side collapse: each maximal run of a repeated identical whitespace
character becomes a single occurrence. -/
def specCollapse : List Char → List Char
  | [] => []
  | c :: t =>
      if pySpace c then c :: specCollapse (t.dropWhile (· = c))
      else c :: specCollapse t
termination_by l => l.length
decreasing_by
  · simpa using Nat.lt_succ_of_le (List.dropWhile_suffix _).sublist.length_le
  · simp

/-- A list has no occurrence of an identical repeated whitespace character:
no position holds a whitespace character equal to its predecessor. -/
def noWsRun : List Char → Prop
  | [] => True
  | [_] => True
  | a :: b :: t => ¬(pySpace a ∧ a = b) ∧ noWsRun (b :: t)

instance : DecidablePred noWsRun := by
  intro l
  induction l with
  | nil => exact .isTrue trivial
  | cons a t ih =>
      cases t with
      | nil => exact .isTrue trivial
      | cons b t' => exact @instDecidableAnd _ _ _ ih

/-! ### The News record (`newsllm/structures.py`)

Field names and order follow the pydantic model.  `Any`-typed metadata values
and the field types not relevant to equality/hashing are modelled as strings.
-/

structure News where
  title : String
  raw_content : String
  url : String
  id : String
  source : String
  scraped_at : String
  published_date : Option String := none
  author : Option String := none
  categories : List String := []
  tags : List String := []
  description : String := ""
  text_content : String := ""
  summary : Option String := none
  metadata : List (String × String) := []
  deriving Repr

/-- `News.__hash__` hashes the string `f"{self.id}-{self.source}"`; since
CPython's `hash` on `str` is a deterministic function of the string's
characters, we model the hash by that key string itself (equal keys give
equal Python hashes). -/
def News.hashKey (n : News) : String := n.id ++ "-" ++ n.source

/-- `News.__eq__`: `self.id == other.id and self.source == other.source`. -/
def News.eq (a b : News) : Bool := a.id = b.id ∧ a.source = b.source

/-! ### Channels (`newsllm/services/channel/`) -/

/-- `BaseChannel.send` body: `raise NotImplementedError`. -/
def BaseChannel.send : Except PyExc Unit := .error .notImplementedError

/-- `BaseChannel.receive` body: `raise NotImplementedError`. -/
def BaseChannel.receive : Except PyExc String := .error .notImplementedError

/-- `BaseDispatchChannel.receive` (dispatch.py lines 23-33):
`raise RuntimeError("Dispatch channels cannot receive messages.")`. -/
def BaseDispatchChannel.receive : Except PyExc String :=
  .error (.runtimeError "Dispatch channels cannot receive messages.")

/-- `BaseInboundChannel.receive` (inbound.py lines 17-27): the override it
actually contains — `raise RuntimeError("Dispatch channels cannot receive
messages.")`. -/
def BaseInboundChannel.receive : Except PyExc String :=
  .error (.runtimeError "Dispatch channels cannot receive messages.")

/-- `BaseInboundChannel` does not override `send`, so `send` resolves to the
abstract `BaseChannel.send` body. -/
def BaseInboundChannel.send : Except PyExc Unit := BaseChannel.send

/-- A channel-direction error as the spec describes it: a `RuntimeError`
whose message says the channel cannot perform the operation. -/
def isDirectionError : Except PyExc Unit → Prop
  | .error (.runtimeError _) => True
  | _ => False

/-! ### SingletonMeta (`newsllm/services/utils.py` lines 19-37)

`_instances` is a dictionary keyed by `(cls, key)`.  Classes are modelled by
their names and live instances by distinct numeric identities; `next` is the
supply of fresh identities. -/

structure SingletonState where
  entries : List ((String × String) × Nat)
  next : Nat
  deriving Repr

/-- `key = args[0] if args else kwargs.get("queue_name", "")`. -/
def singletonKey (args : List String) (kwargs_queue_name : Option String) : String :=
  match args with
  | a :: _ => a
  | [] => kwargs_queue_name.getD ""

/-- `SingletonMeta.__call__`: return the cached instance for `(cls, key)`,
constructing and caching a fresh one only when the key is absent.  The
returned `Bool` records whether a new instance was constructed. -/
def SingletonMeta.call (cls key : String) (s : SingletonState) :
    Nat × SingletonState × Bool :=
  match (s.entries.lookup (cls, key) : Option Nat) with
  | some i => (i, s, false)
  | none => (s.next, ⟨s.entries ++ [((cls, key), s.next)], s.next + 1⟩, true)

/-- States reachable from the empty registry: every cached identity is below
`next`, and identities are pairwise distinct. -/
def SingletonInv (s : SingletonState) : Prop :=
  (∀ e ∈ s.entries, e.2 < s.next) ∧ (s.entries.map (·.2)).Nodup

/-! ### Queues (`newsllm/services/queue/`)

`ListQueue` wraps a `collections.deque`; `RedisQueue` wraps a redis list,
modelled as a `List` whose head is the redis head (`LPUSH`/`LPOP` end). -/

/-- `ListQueue.enqueue`: `self.queue.append(item)`. -/
def ListQueue.enqueue (q : List α) (x : α) : List α := q ++ [x]

/-- `ListQueue.dequeue`: `popleft`, or `None` when empty. -/
def ListQueue.dequeue : List α → Option α × List α
  | [] => (none, [])
  | h :: t => (some h, t)

/-- `ListQueue.dequeue_generator`: `while self.queue: yield self.dequeue()`;
returns the yielded items in order (the final queue state is empty). -/
def ListQueue.dequeueGenerator : List α → List α
  | [] => []
  | h :: t => h :: ListQueue.dequeueGenerator t

/-- `RedisQueue.enqueue`: `self.client.lpush(self.queue_name, item)`. -/
def RedisQueue.enqueue (q : List α) (x : α) : List α := x :: q

/-- `RedisQueue.dequeue`: `self.client.rpop(self.queue_name)`. -/
def RedisQueue.dequeue (q : List α) : Option α × List α :=
  (q.getLast?, q.dropLast)

/-- `RedisQueue.dequeue_generator`: `while True: item = lpop(...); if item is
None: break; yield item`; returns the yielded items in order. -/
def RedisQueue.dequeueGenerator : List α → List α
  | [] => []
  | h :: t => h :: RedisQueue.dequeueGenerator t

/-! ### Scrapers (`newsllm/services/scraper/`)

A scraper's `_scrape` either returns a list of records or raises; the wrapper
`scrape` and the orchestrator are functions of those outcomes. -/

/-- `BaseScraper.scrape` (base.py lines 30-49): run `_scrape` inside
`try/except Exception`; on failure log and fall through to the initial
`news_list = []`. -/
def BaseScraper.scrape (outcome : Except PyExc (List News)) :
    Except PyExc (List News) :=
  match outcome with
  | .ok l => .ok l
  | .error _ => .ok []

/-- `scraped_news[:limit]` guarded by `if limit is not None`. -/
def applyLimit (limit : Option Nat) (l : List News) : List News :=
  match limit with
  | none => l
  | some n => l.take n

/-- `ScraperFactory.scrape` (factory.py lines 61-82): drive each scraper in
order, truncate its results to `limit`, extend the accumulated list and
enqueue each record's serialization.  Returns `(news_list, queue)` where
`queue` is the list of enqueued serializations. -/
def ScraperFactory.scrape (limit : Option Nat) (dump : News → String)
    (outcomes : List (Except PyExc (List News))) :
    Except PyExc (List News × List String) :=
  match outcomes with
  | [] => .ok ([], [])
  | o :: rest => do
      let scraped ← BaseScraper.scrape o
      let scraped := applyLimit limit scraped
      let (tailNews, tailQueue) ← ScraperFactory.scrape limit dump rest
      .ok (scraped ++ tailNews, scraped.map dump ++ tailQueue)

/-! ### LLM providers (`newsllm/services/summarizer/base.py`, `llm_providers.py`)

The provider's advertised model catalog is the list of the `name` attributes
returned by `client.models.list()`; the OpenAI client itself is external, so
`call` is a function of the catalog and of the outcome of each chat-completion
request (indexed by attempt number). -/

/-- Python's `str.split(":")`. -/
def splitOnColon : List Char → List (List Char)
  | [] => [[]]
  | c :: t =>
      match splitOnColon t with
      | [] => [[]]
      | h :: r => if c = ':' then [] :: h :: r else (c :: h) :: r

/-- One catalog identifier as `_check_model_exists` normalizes it:
`model.name.split(":")[-1].strip().lower()`.  (`split` on `":"` never
returns an empty list, so the `[-1]` index is total.) -/
def catalogEntryNorm (name : List Char) : List Char :=
  (pyStrip ((splitOnColon name).getLastD [])).map Char.toLower

/-- `BaseLLMProvider._check_model_exists` (base.py lines 76-88):
`model_name.lower() in [model.name.split(":")[-1].strip().lower() for ...]`. -/
def check_model_exists (catalog : List (List Char)) (model_name : List Char) : Bool :=
  (catalog.map catalogEntryNorm).contains (model_name.map Char.toLower)

/-- One attempt of the body of `BaseLLMProvider.call` (base.py lines 90-126):
check the catalog, raise `ModelNotFoundError` if absent, otherwise issue the
chat-completion request and turn any request failure into `""`.  The `Bool`
records whether the generation request was issued. -/
def callAttempt (catalog : List (List Char)) (model_name : List Char)
    (api : Except PyExc String) : Except PyExc String × Bool :=
  if check_model_exists catalog model_name then
    match api with
    | .ok s => (.ok s, true)
    | .error _ => (.ok "", true)
  else
    (.error (.modelNotFoundError ("Model " ++ String.mk model_name ++ " not found.")),
      false)

/-- How many model-existence checks / generation requests a call performed. -/
structure CallTrace where
  checks : Nat
  genRequests : Nat
  deriving Repr, DecidableEq

/-- `BaseLLMProvider.call` with its decorator
`@retry(wait=wait_random_exponential(min=2, max=6), stop=stop_after_attempt(2))`:
tenacity's default retry condition retries on any `Exception`, and with the
default `reraise=False` a second failed attempt surfaces as `RetryError`
wrapping the last exception.  Each attempt performs exactly one
model-existence check. -/
def BaseLLMProvider.call (catalog : List (List Char)) (model_name : List Char)
    (api : Nat → Except PyExc String) : Except PyExc String × CallTrace :=
  match callAttempt catalog model_name (api 1) with
  | (.ok s, g1) => (.ok s, ⟨1, if g1 then 1 else 0⟩)
  | (.error _, g1) =>
      match callAttempt catalog model_name (api 2) with
      | (.ok s, g2) =>
          (.ok s, ⟨2, (if g1 then 1 else 0) + (if g2 then 1 else 0)⟩)
      | (.error e2, g2) =>
          (.error (.retryError e2),
           ⟨2, (if g1 then 1 else 0) + (if g2 then 1 else 0)⟩)

/-- The provider classes registered in `ProviderFactory.PROVIDERS`. -/
inductive ProviderClass where
  | openRouterProvider
  | openAIProvider
  deriving Repr, DecidableEq

/-- `ProviderFactory.PROVIDERS` (llm_providers.py lines 70-76). -/
def ProviderFactory.PROVIDERS : List (String × ProviderClass) :=
  [("openrouter", .openRouterProvider), ("openai", .openAIProvider)]

/-- `ProviderFactory.get_provider` (llm_providers.py lines 78-87):
`provider = cls.PROVIDERS.get(provider_name); if not provider: raise
ModelNotFoundError(f"Provider {provider_name} not found."); return provider`. -/
def ProviderFactory.get_provider (provider_name : String) :
    Except PyExc ProviderClass :=
  match ProviderFactory.PROVIDERS.lookup provider_name with
  | some p => .ok p
  | none => .error (.modelNotFoundError ("Provider " ++ provider_name ++ " not found."))

/-- `leadsWith p l`: `l` starts with the pattern literal `p`. -/
def leadsWith : List Char → List Char → Bool
  | [], _ => true
  | _ :: _, [] => false
  | p :: ps, c :: cs => p = c && leadsWith ps cs

/-! ### JSON (`json.loads`)

A model of CPython's strict JSON decoder on `str` input, for the fragment the
summarizer can meet: values are `null`, booleans, numbers, strings with the
standard escapes, arrays and objects.  Numbers with a fraction or exponent
decode to a float; floats are kept as their lexeme (`jnumRaw`), which is all
the claims need.  `\uXXXX` escapes in the surrogate range are outside the
model and rejected. -/

inductive Json where
  | jnull
  | jbool (b : Bool)
  | jnum (n : Int)
  | jnumRaw (lexeme : List Char)
  | jstr (s : List Char)
  | jarr (elems : List Json)
  | jobj (members : List (List Char × Json))
  deriving Repr

/-- The whitespace the JSON decoder skips between tokens. -/
def jsonWs (c : Char) : Bool := c = ' ' ∨ c = '\t' ∨ c = '\n' ∨ c = '\r'

def skipJsonWs (l : List Char) : List Char := l.dropWhile jsonWs

def hexVal (c : Char) : Option Nat :=
  if '0' ≤ c ∧ c ≤ '9' then some (c.toNat - '0'.toNat)
  else if 'a' ≤ c ∧ c ≤ 'f' then some (c.toNat - 'a'.toNat + 10)
  else if 'A' ≤ c ∧ c ≤ 'F' then some (c.toNat - 'A'.toNat + 10)
  else none

def escChar (c : Char) : Option Char :=
  if c = '"' then some '"'
  else if c = '\\' then some '\\'
  else if c = '/' then some '/'
  else if c = 'b' then some (Char.ofNat 0x08)
  else if c = 'f' then some (Char.ofNat 0x0c)
  else if c = 'n' then some '\n'
  else if c = 'r' then some (Char.ofNat 0x0d)
  else if c = 't' then some '\t'
  else none

/-- Parse the contents of a JSON string, the opening quote already consumed;
returns the decoded content and the input after the closing quote.  Raw
control characters below `0x20` are invalid (strict mode). -/
def parseJString : List Char → Option (List Char × List Char)
  | [] => none
  | c :: t =>
      if c = '"' then some ([], t)
      else if c = '\\' then
        match t with
        | [] => none
        | e :: t2 =>
            if e = 'u' then
              match t2 with
              | h1 :: h2 :: h3 :: h4 :: t3 =>
                  match hexVal h1, hexVal h2, hexVal h3, hexVal h4 with
                  | some d1, some d2, some d3, some d4 =>
                      let n := ((d1 * 16 + d2) * 16 + d3) * 16 + d4
                      if 0xd800 ≤ n ∧ n ≤ 0xdfff then none
                      else
                        match parseJString t3 with
                        | some (s, r) => some (Char.ofNat n :: s, r)
                        | none => none
                  | _, _, _, _ => none
              | _ => none
            else
              match escChar e with
              | some ec =>
                  match parseJString t2 with
                  | some (s, r) => some (ec :: s, r)
                  | none => none
              | none => none
      else if c.toNat < 0x20 then none
      else
        match parseJString t with
        | some (s, r) => some (c :: s, r)
        | none => none
termination_by l => l.length
decreasing_by all_goals simp_arith

def natOfDigits (l : List Char) : Nat :=
  l.foldl (fun acc c => acc * 10 + (c.toNat - '0'.toNat)) 0

/-- Parse a JSON number: `-? (0 | [1-9][0-9]*) frac? exp?`.  Pure integers
become `jnum`; a fraction or exponent makes the lexeme a float, kept raw. -/
def parseJNumber (l : List Char) : Option (Json × List Char) :=
  let (negPart, l1) : List Char × List Char :=
    match l with
    | '-' :: t => (['-'], t)
    | _ => ([], l)
  let intPart : Option (List Char × List Char) :=
    match l1 with
    | '0' :: t => some (['0'], t)
    | c :: t =>
        if '1' ≤ c ∧ c ≤ '9' then
          some (c :: t.takeWhile (·.isDigit), t.dropWhile (·.isDigit))
        else none
    | [] => none
  match intPart with
  | none => none
  | some (ip, l2) =>
      let fracPart : Option (List Char × List Char) :=
        match l2 with
        | '.' :: t =>
            match t.takeWhile (·.isDigit) with
            | [] => none
            | ds => some ('.' :: ds, t.dropWhile (·.isDigit))
        | _ => some ([], l2)
      match fracPart with
      | none => none
      | some (fp, l3) =>
          let expPart : Option (List Char × List Char) :=
            match l3 with
            | e :: t =>
                if e = 'e' ∨ e = 'E' then
                  let (sgn, t2) : List Char × List Char :=
                    match t with
                    | s :: t' => if s = '+' ∨ s = '-' then ([s], t') else ([], t)
                    | [] => ([], t)
                  match t2.takeWhile (·.isDigit) with
                  | [] => none
                  | ds => some (e :: sgn ++ ds, t2.dropWhile (·.isDigit))
                else some ([], l3)
            | [] => some ([], l3)
          match expPart with
          | none => none
          | some (ep, l4) =>
              if fp = [] ∧ ep = [] then
                let mag : Int := (natOfDigits ip : Int)
                some (.jnum (if negPart = [] then mag else -mag), l4)
              else
                some (.jnumRaw (negPart ++ ip ++ fp ++ ep), l4)

mutual

/-- Parse one JSON value, leading whitespace allowed; the scanner dispatches
on the first character, then on the `null`/`true`/`false` literals, else
reads a number.  `fuel` bounds the recursion; every recursive call uses one
unit. -/
def parseJValue : Nat → List Char → Option (Json × List Char)
  | 0, _ => none
  | fuel + 1, l =>
      match skipJsonWs l with
      | [] => none
      | c :: t =>
          if c = '"' then
            match parseJString t with
            | some (str, r) => some (.jstr str, r)
            | none => none
          else if c = '[' then
            match skipJsonWs t with
            | [] => none
            | d :: t2 =>
                if d = ']' then some (.jarr [], t2)
                else
                  match parseJArrayItems fuel (d :: t2) with
                  | some (xs, r) => some (.jarr xs, r)
                  | none => none
          else if c = '{' then
            match skipJsonWs t with
            | [] => none
            | d :: t2 =>
                if d = '}' then some (.jobj [], t2)
                else
                  match parseJObjMembers fuel (d :: t2) with
                  | some (ms, r) => some (.jobj ms, r)
                  | none => none
          else if leadsWith "null".data (c :: t) then some (.jnull, (c :: t).drop 4)
          else if leadsWith "true".data (c :: t) then some (.jbool true, (c :: t).drop 4)
          else if leadsWith "false".data (c :: t) then some (.jbool false, (c :: t).drop 5)
          else parseJNumber (c :: t)

/-- Parse the items of a non-empty JSON array, up to and including the
closing bracket. -/
def parseJArrayItems : Nat → List Char → Option (List Json × List Char)
  | 0, _ => none
  | fuel + 1, l =>
      match parseJValue fuel l with
      | some (v, r) =>
          match skipJsonWs r with
          | [] => none
          | d :: r2 =>
              if d = ',' then
                match parseJArrayItems fuel r2 with
                | some (xs, r3) => some (v :: xs, r3)
                | none => none
              else if d = ']' then some ([v], r2)
              else none
      | none => none

/-- Parse the members of a non-empty JSON object, up to and including the
closing brace. -/
def parseJObjMembers : Nat → List Char → Option (List (List Char × Json) × List Char)
  | 0, _ => none
  | fuel + 1, l =>
      match skipJsonWs l with
      | [] => none
      | c :: t =>
          if c = '"' then
            match parseJString t with
            | some (k, r) =>
                match skipJsonWs r with
                | [] => none
                | d :: r2 =>
                    if d = ':' then
                      match parseJValue fuel r2 with
                      | some (v, r3) =>
                          match skipJsonWs r3 with
                          | [] => none
                          | e :: r4 =>
                              if e = ',' then
                                match parseJObjMembers fuel r4 with
                                | some (ms, r5) => some ((k, v) :: ms, r5)
                                | none => none
                              else if e = '}' then some ([(k, v)], r4)
                              else none
                      | none => none
                    else none
            | none => none
          else none

end

/-- `json.loads` on a `str`: parse exactly one document, allowing surrounding
whitespace; anything else is a `JSONDecodeError`. -/
def json_loads (l : List Char) : Except PyExc Json :=
  match parseJValue (2 * l.length + 4) l with
  | some (v, r) => if (skipJsonWs r).isEmpty then .ok v else .error .jsonDecodeError
  | none => .error .jsonDecodeError

/-! ### Fenced-block extraction (`Summarizer.extract_json`)

Model of `re.compile(r"```json(.*?)```|```(.*?)```", re.DOTALL).search(text)`:
the scanner tries the alternation at each position from the left; at a given
position the first alternative is tried first, and the lazy `(.*?)` stops at
the earliest closing fence. -/

def backtickChar : Char := Char.ofNat 0x60

/-- Find the earliest occurrence of a closing fence; returns the text before
it and the text after it. -/
def findClose : List Char → Option (List Char × List Char)
  | [] => none
  | c :: t =>
      if leadsWith "```".data (c :: t) then some ([], t.drop 2)
      else
        match findClose t with
        | some (b, r) => some (c :: b, r)
        | none => none

/-- The match result: which capture group matched, with its contents. -/
inductive FenceMatch where
  | g1 (body : List Char)
  | g2 (body : List Char)
  deriving Repr, DecidableEq

/-- Try the second alternative `` ```(.*?)``` `` at the current position. -/
def tryMatchPlainAt (l : List Char) : Option FenceMatch :=
  if leadsWith "```".data l then
    match findClose (l.drop 3) with
    | some (b, _) => some (.g2 b)
    | none => none
  else none

/-- Try the alternation at the current position: `` ```json(.*?)``` `` first,
then `` ```(.*?)``` ``. -/
def tryMatchAt (l : List Char) : Option FenceMatch :=
  if leadsWith "```json".data l then
    match findClose (l.drop 7) with
    | some (b, _) => some (.g1 b)
    | none => tryMatchPlainAt l
  else tryMatchPlainAt l

/-- `pattern.search(text)`: leftmost position wins. -/
def reSearch : List Char → Option FenceMatch
  | [] => none
  | c :: t =>
      match tryMatchAt (c :: t) with
      | some m => some m
      | none => reSearch t

/-- `Summarizer.extract_json` (summarizer.py lines 81-96):
`return match.group(1).strip() if match.group(1) else match.group(2).strip()`
— when the first alternative matched with an *empty* group 1, the guard is
falsy and `match.group(2)` is `None`, so `.strip()` raises
`AttributeError`. -/
def extract_json (l : List Char) : Except PyExc (Option (List Char)) :=
  match reSearch l with
  | none => .ok none
  | some (.g1 b) =>
      if b.isEmpty then
        .error (.attributeError "NoneType object has no attribute strip")
      else .ok (some (pyStrip b))
  | some (.g2 b) => .ok (some (pyStrip b))

/-- `Summarizer.load_json` (summarizer.py lines 98-113): `json.loads` with
`JSONDecodeError` degraded to `{}`. -/
def load_json (l : List Char) : Json :=
  match json_loads l with
  | .ok v => v
  | .error _ => .jobj []

/-- The `try:` body of `Summarizer.summarize` (summarizer.py lines 43-65)
applied to the provider's raw response text: normalize, extract the fenced
payload, and parse it when the extracted payload is truthy. -/
def Summarizer.summarizeBody (text : List Char) : Except PyExc Json :=
  match extract_json (normalize_text text) with
  | .error e => .error e
  | .ok none => .ok (.jobj [])
  | .ok (some s) => if s.isEmpty then .ok (.jobj []) else .ok (load_json s)

/-- `Summarizer.summarize` on the provider's response: the surrounding
`try/except Exception` turns any raised error into `{}`. -/
def Summarizer.summarize (text : List Char) : Json :=
  match Summarizer.summarizeBody text with
  | .ok v => v
  | .error _ => .jobj []

/-! ### Claim C5: News equality and hashing -/

/-- A record whose `(id, source)` pair is `("a-b", "c")`. -/
def newsIdAB_C : News :=
  { title := "t1", raw_content := "r1", url := "https://example.com/1",
    id := "a-b", source := "c", scraped_at := "2024-01-01" }

/-- A record whose `(id, source)` pair is `("a", "b-c")`. -/
def newsIdA_BC : News :=
  { title := "t2", raw_content := "r2", url := "https://example.com/2",
    id := "a", source := "b-c", scraped_at := "2024-01-02" }

/-! ### Claim C2: queue FIFO order -/

/-- The list backend after enqueueing `a`, `b`, `c` on a fresh queue. -/
def listQueueABC : List String :=
  ListQueue.enqueue (ListQueue.enqueue (ListQueue.enqueue [] "a") "b") "c"

/-- The redis backend after enqueueing `a`, `b`, `c` on a fresh queue. -/
def redisQueueABC : List String :=
  RedisQueue.enqueue (RedisQueue.enqueue (RedisQueue.enqueue [] "a") "b") "c"

/-! ### Claim C3: model-not-found handling in `BaseLLMProvider.call` -/

/-- A sample advertised catalog (entries as `models.list()` names). -/
def sampleCatalog : List (List Char) := ["anthropic: claude".data, "openai: gpt-4o".data]

/-! ### Collapse as a left-to-right filter

`keepAfter prev l` keeps each character of `l` unless it is a whitespace
character equal to the character just before it; this is the tail of the
regex-substitution scan and composes over `++`. -/

def keepAfter (prev : Char) : List Char → List Char
  | [] => []
  | c :: t => if pySpace c ∧ c = prev then keepAfter c t else c :: keepAfter c t

/-- `cleanFrom prev l`: no character of `l` is a whitespace character equal
to the one before it (`prev` preceding the head). -/
def cleanFrom (prev : Char) : List Char → Bool
  | [] => true
  | c :: t => if pySpace c ∧ c = prev then false else cleanFrom c t

/-! ### Normalization over a fenced response -/

def keepAfterStart : List Char → List Char
  | [] => []
  | c :: t => c :: keepAfter c t

/-! ### Parsing the summarizer's JSON object -/

/-- A payload character that is inert for every stage of the pipeline: not a
quote, backslash or backtick, and not a raw control character. -/
def plainChar (c : Char) : Bool :=
  c ≠ '"' ∧ c ≠ '\\' ∧ c ≠ backtickChar ∧ ¬(c.toNat < 0x20)

/-- The provider-format JSON object `{"summary": S, "tags": [t1, t2]}` in its
compact serialization. -/
def jsonBody (S t1 t2 : List Char) : List Char :=
  '{' :: '"' :: 's' :: 'u' :: 'm' :: 'm' :: 'a' :: 'r' :: 'y' :: '"' :: ':' :: '"' ::
    (S ++ '"' :: ',' :: '"' :: 't' :: 'a' :: 'g' :: 's' :: '"' :: ':' :: '[' :: '"' ::
      (t1 ++ '"' :: ',' :: '"' :: (t2 ++ '"' :: ']' :: '}' :: [])))

/-- The mapping the spec expects `summarize` to produce from that object. -/
def summaryTagsJson (S t1 t2 : List Char) : Json :=
  .jobj [("summary".data, .jstr S), ("tags".data, .jarr [.jstr t1, .jstr t2])]

/-! ### Fenced blocks survive in reverse through normalization -/

/-- The spec-side notion "the text contains a fenced code block": an opening
and a closing triple-backtick fence with arbitrary material around. -/
def containsFencedBlock (l : List Char) : Prop :=
  ∃ u b v, l = u ++ ("```".data ++ (b ++ ("```".data ++ v)))

/-- A response that contains the json-tagged fenced block wrapping the exact
summary/tags object, but with a decoy fenced block earlier in the text. -/
def c1DecoyText : List Char :=
  "```x``` ".data ++ ("```json".data ++ (jsonBody "S".data "t1".data "t2".data ++
    ("```".data ++ [])))

/-! ## Theorems -/

theorem subWsRuns_eq_specCollapse : ∀ l : List Char, subWsRuns l = specCollapse l
  | [] => by simp [subWsRuns, specCollapse]
  | [a] => by simp [subWsRuns, specCollapse]
  | a :: b :: t => by
      by_cases hws : pySpace a ∧ a = b
      · rw [subWsRuns, if_pos hws, subWsRuns_eq_specCollapse (a :: t)]
        rcases hws with ⟨hsp, hab⟩
        subst hab
        conv_rhs => rw [specCollapse]
        rw [if_pos hsp]
        conv_lhs => rw [specCollapse]
        rw [if_pos hsp, show ((a :: t).dropWhile (· = a)) =
          t.dropWhile (· = a) by simp [List.dropWhile_cons]]
      · rw [subWsRuns, if_neg hws, subWsRuns_eq_specCollapse (b :: t)]
        by_cases hsp : pySpace a
        · have hba : ¬ b = a := fun h => hws ⟨hsp, h.symm⟩
          conv_rhs => rw [specCollapse]
          rw [if_pos hsp, show ((b :: t).dropWhile (· = a)) = b :: t by
            simp [List.dropWhile_cons, hba]]
        · conv_rhs => rw [specCollapse]
          rw [if_neg hsp]
termination_by l => l.length
decreasing_by all_goals simp_arith

theorem specCollapse_of_noWsRun : ∀ l : List Char, noWsRun l → specCollapse l = l
  | [], _ => by simp [specCollapse]
  | [a], _ => by simp [specCollapse]
  | a :: b :: t, h => by
      obtain ⟨h1, h2⟩ := h
      by_cases hsp : pySpace a
      · have hba : ¬ b = a := fun hh => h1 ⟨hsp, hh.symm⟩
        rw [specCollapse, if_pos hsp,
          show ((b :: t).dropWhile (· = a)) = b :: t by
            simp [List.dropWhile_cons, hba]]
        rw [specCollapse_of_noWsRun (b :: t) h2]
      · rw [specCollapse, if_neg hsp, specCollapse_of_noWsRun (b :: t) h2]
termination_by l => l.length
decreasing_by all_goals simp_arith

/-- C5 counterexample: the two records above hash the same key string
`"a-b-c"` (hence the same Python hash), yet they are not equal, so hash
equality does not imply `(id, source)` equality. -/
theorem news_hash_eq_not_imp_eq :
    newsIdAB_C.hashKey = newsIdA_BC.hashKey ∧ News.eq newsIdAB_C newsIdA_BC = false := by
  constructor
  · rfl
  · decide

/-- C5 amended: records are equal iff their `(id, source)` pairs match, and
`(id, source)` equality implies hash equality (so no other field affects
equality or the hash); the converse implication from hash equality fails. -/
theorem news_eq_iff_id_source (a b : News) :
    (News.eq a b = true ↔ a.id = b.id ∧ a.source = b.source) ∧
    (a.id = b.id → a.source = b.source → News.eq a b = true ∧ a.hashKey = b.hashKey) := by
  refine ⟨?_, fun h1 h2 => ⟨?_, ?_⟩⟩
  · simp [News.eq]
  · simp [News.eq, h1, h2]
  · simp [News.hashKey, h1, h2]

theorem news_eq_iff_id_source_witness :
    News.eq newsIdAB_C newsIdAB_C = true ∧ newsIdAB_C.hashKey = newsIdAB_C.hashKey :=
  (news_eq_iff_id_source newsIdAB_C newsIdAB_C).2 rfl rfl

/-! ### Claim C4: channel direction errors -/

/-- C4 evaluation: a dispatch channel's `receive` raises the direction error,
but an inbound channel's `receive` raises that same direction error (the
override was copy-pasted onto the wrong capability), and an inbound channel's
`send` is the inherited abstract method, not a channel-direction rejection. -/
theorem channel_direction_eval :
    BaseDispatchChannel.receive =
      .error (.runtimeError "Dispatch channels cannot receive messages.") ∧
    BaseInboundChannel.receive =
      .error (.runtimeError "Dispatch channels cannot receive messages.") ∧
    BaseInboundChannel.send = .error .notImplementedError ∧
    ¬ isDirectionError BaseInboundChannel.send := by
  refine ⟨rfl, rfl, rfl, ?_⟩
  simp [isDirectionError, BaseInboundChannel.send, BaseChannel.send]

/-- C2 evaluation: three `dequeue` calls are FIFO on both backends and the
list backend's generator drains FIFO, but the redis backend's generator
(`LPOP` against an `LPUSH` producer) drains in reverse order. -/
theorem queue_fifo_eval :
    (ListQueue.dequeue listQueueABC).1 = some "a" ∧
    (ListQueue.dequeue (ListQueue.dequeue listQueueABC).2).1 = some "b" ∧
    (ListQueue.dequeue (ListQueue.dequeue (ListQueue.dequeue listQueueABC).2).2).1 = some "c" ∧
    ListQueue.dequeueGenerator listQueueABC = ["a", "b", "c"] ∧
    (RedisQueue.dequeue redisQueueABC).1 = some "a" ∧
    (RedisQueue.dequeue (RedisQueue.dequeue redisQueueABC).2).1 = some "b" ∧
    (RedisQueue.dequeue (RedisQueue.dequeue (RedisQueue.dequeue redisQueueABC).2).2).1 = some "c" ∧
    RedisQueue.dequeueGenerator redisQueueABC = ["c", "b", "a"] ∧
    RedisQueue.dequeueGenerator redisQueueABC ≠ ["a", "b", "c"] := by
  refine ⟨rfl, rfl, rfl, rfl, rfl, rfl, rfl, rfl, ?_⟩
  decide

/-! ### Claim C6: scraper fault isolation -/

theorem factory_scrape_isOk (limit : Option Nat) (dump : News → String) :
    ∀ outcomes, ∃ p, ScraperFactory.scrape limit dump outcomes = .ok p := by
  intro outcomes
  induction outcomes with
  | nil => exact ⟨([], []), rfl⟩
  | cons o rest ih =>
      obtain ⟨⟨tn, tq⟩, hp⟩ := ih
      cases o with
      | ok l =>
          exact ⟨(applyLimit limit l ++ tn, (applyLimit limit l).map dump ++ tq),
            by simp [ScraperFactory.scrape, BaseScraper.scrape, hp, Bind.bind, Except.bind]⟩
      | error e =>
          exact ⟨(applyLimit limit [] ++ tn, (applyLimit limit []).map dump ++ tq),
            by simp [ScraperFactory.scrape, BaseScraper.scrape, hp, Bind.bind, Except.bind]⟩

/-- C6: a scraper whose `_scrape` raises contributes an empty result through
the `scrape` wrapper without propagating, and the orchestrator's run over any
scraper collection containing such a failure equals the run over the
surviving scrapers (in particular it never raises). -/
theorem scraper_isolation (limit : Option Nat) (dump : News → String)
    (pre post : List (Except PyExc (List News))) (e : PyExc) :
    BaseScraper.scrape (.error e) = .ok [] ∧
    ScraperFactory.scrape limit dump (pre ++ .error e :: post) =
      ScraperFactory.scrape limit dump (pre ++ post) ∧
    (∃ p, ScraperFactory.scrape limit dump (pre ++ .error e :: post) = .ok p) := by
  refine ⟨rfl, ?_, ?_⟩
  · induction pre with
    | nil =>
        obtain ⟨⟨tn, tq⟩, hp⟩ := factory_scrape_isOk limit dump post
        simp [ScraperFactory.scrape, BaseScraper.scrape, hp, Bind.bind, Except.bind, applyLimit]
        cases limit <;> simp [applyLimit]
    | cons o rest ih =>
        cases o with
        | ok l => simp [ScraperFactory.scrape, BaseScraper.scrape, ih, Bind.bind, Except.bind]
        | error e' => simp [ScraperFactory.scrape, BaseScraper.scrape, ih, Bind.bind, Except.bind]
  · exact factory_scrape_isOk limit dump _

/-! ### Claim C7: per-name singleton construction -/

theorem lookup_append {α β : Type} [BEq α] (k : α) (l1 l2 : List (α × β)) :
    (l1 ++ l2).lookup k =
      match l1.lookup k with
      | some v => some v
      | none => l2.lookup k := by
  induction l1 with
  | nil => simp [List.lookup]
  | cons p t ih =>
      obtain ⟨a, b⟩ := p
      by_cases h : k == a
      · simp [List.lookup, h]
      · simp only [List.cons_append, List.lookup]
        rw [Bool.not_eq_true] at h
        simp [h, ih]

theorem lookup_mem_snd {α β : Type} [BEq α] {k : α} {v : β} :
    ∀ {l : List (α × β)}, l.lookup k = some v → v ∈ l.map Prod.snd := by
  intro l
  induction l with
  | nil => simp [List.lookup]
  | cons p t ih =>
      obtain ⟨a, b⟩ := p
      by_cases h : k == a
      · simp [List.lookup, h]
        intro hv
        exact Or.inl hv.symm
      · rw [Bool.not_eq_true] at h
        simp [List.lookup, h]
        intro hv
        exact Or.inr (by simpa using ih hv)

theorem lookup_nodup_ne {α β : Type} [BEq α] [LawfulBEq α] {k1 k2 : α} {v1 v2 : β} :
    ∀ {l : List (α × β)}, (l.map Prod.snd).Nodup → k1 ≠ k2 →
      l.lookup k1 = some v1 → l.lookup k2 = some v2 → v1 ≠ v2 := by
  intro l
  induction l with
  | nil => simp [List.lookup]
  | cons p t ih =>
      obtain ⟨a, b⟩ := p
      intro hnd hk h1 h2
      simp only [List.map_cons, List.nodup_cons] at hnd
      by_cases e1 : k1 == a
      · have e2 : ¬ (k2 == a) := by
          intro h
          exact hk ((eq_of_beq e1).trans (eq_of_beq h).symm)
        simp [List.lookup, e1] at h1
        rw [Bool.not_eq_true] at e2
        simp [List.lookup, e2] at h2
        subst h1
        exact fun hv => hnd.1 (hv ▸ lookup_mem_snd h2)
      · by_cases e2 : k2 == a
        · rw [Bool.not_eq_true] at e1
          simp [List.lookup, e1] at h1
          simp [List.lookup, e2] at h2
          subst h2
          exact fun hv => hnd.1 (hv ▸ lookup_mem_snd h1)
        · rw [Bool.not_eq_true] at e1 e2
          simp [List.lookup, e1] at h1
          simp [List.lookup, e2] at h2
          exact ih hnd.2 hk h1 h2

/-- `__call__` when the key is cached. -/
theorem singleton_call_of_lookup_some {cls key : String} {s : SingletonState}
    {i : Nat} (h : s.entries.lookup (cls, key) = some i) :
    SingletonMeta.call cls key s = (i, s, false) := by
  unfold SingletonMeta.call
  rw [h]

/-- `__call__` when the key is absent. -/
theorem singleton_call_of_lookup_none {cls key : String} {s : SingletonState}
    (h : s.entries.lookup (cls, key) = none) :
    SingletonMeta.call cls key s =
      (s.next, ⟨s.entries ++ [((cls, key), s.next)], s.next + 1⟩, true) := by
  unfold SingletonMeta.call
  rw [h]

theorem lookup_mem {α β : Type} [BEq α] [LawfulBEq α] {k : α} {v : β} :
    ∀ {l : List (α × β)}, l.lookup k = some v → (k, v) ∈ l := by
  intro l
  induction l with
  | nil => simp [List.lookup]
  | cons p t ih =>
      obtain ⟨a, b⟩ := p
      by_cases h : k == a
      · have hka : k = a := eq_of_beq h
        subst hka
        simp [List.lookup]
        intro hv
        exact Or.inl hv.symm
      · rw [Bool.not_eq_true] at h
        simp [List.lookup, h]
        intro hv
        exact Or.inr (ih hv)

/-- After any construction, the registry caches the returned identity for the
requested `(cls, key)`. -/
theorem singleton_lookup_after_call (cls key : String) (s : SingletonState) :
    ((SingletonMeta.call cls key s).2.1).entries.lookup (cls, key) =
      some (SingletonMeta.call cls key s).1 := by
  cases h : s.entries.lookup (cls, key) with
  | some i => rw [singleton_call_of_lookup_some h]; exact h
  | none =>
      rw [singleton_call_of_lookup_none h]
      rw [lookup_append, h]
      simp [List.lookup]

/-- A construction preserves the registry invariant. -/
theorem singleton_call_inv (cls key : String) (s : SingletonState)
    (hInv : SingletonInv s) : SingletonInv (SingletonMeta.call cls key s).2.1 := by
  cases h : s.entries.lookup (cls, key) with
  | some i => rw [singleton_call_of_lookup_some h]; exact hInv
  | none =>
      rw [singleton_call_of_lookup_none h]
      obtain ⟨hlt, hnd⟩ := hInv
      constructor
      · intro e he
        simp at he
        rcases he with he | he
        · exact Nat.lt_succ_of_lt (hlt e he)
        · simp [he]
      · simp only [List.map_append, List.map_cons, List.map_nil]
        rw [List.nodup_append]
        refine ⟨hnd, List.nodup_singleton _, ?_⟩
        intro a ha hb
        simp at hb
        subst hb
        obtain ⟨⟨k0, v0⟩, hm, hv⟩ := List.mem_map.mp ha
        simp at hv
        subst hv
        exact Nat.lt_irrefl _ (hlt _ hm)

/-- C7: constructing twice with the same name returns the identical instance
and constructs nothing new the second time; a different name (same backend
class) or a different backend class (same name) yields a distinct instance. -/
theorem singleton_per_key (cls key cls2 key2 : String) (s : SingletonState)
    (hInv : SingletonInv s) (hne : (cls, key) ≠ (cls2, key2)) :
    (SingletonMeta.call cls key ((SingletonMeta.call cls key s).2.1) =
        ((SingletonMeta.call cls key s).1, (SingletonMeta.call cls key s).2.1, false)) ∧
    (SingletonMeta.call cls2 key2 ((SingletonMeta.call cls key s).2.1)).1 ≠
      (SingletonMeta.call cls key s).1 := by
  have hcache := singleton_lookup_after_call cls key s
  have hInv1 := singleton_call_inv cls key s hInv
  refine ⟨singleton_call_of_lookup_some hcache, ?_⟩
  set s1 := (SingletonMeta.call cls key s).2.1 with hs1
  cases h2 : s1.entries.lookup (cls2, key2) with
  | some j =>
      rw [singleton_call_of_lookup_some h2]
      exact lookup_nodup_ne hInv1.2 (Ne.symm hne) h2 hcache
  | none =>
      rw [singleton_call_of_lookup_none h2]
      have hm : ((cls, key), (SingletonMeta.call cls key s).1) ∈ s1.entries :=
        lookup_mem hcache
      exact (Nat.ne_of_lt (hInv1.1 _ hm)).symm

/-- Witness for the registry theorem at concrete inputs: the list backend,
queue names `"llm-queue"` and `"other"`, empty registry. -/
theorem singleton_per_key_witness :
    (SingletonMeta.call "ListQueue" "llm-queue"
        ((SingletonMeta.call "ListQueue" "llm-queue" ⟨[], 0⟩).2.1) =
      ((SingletonMeta.call "ListQueue" "llm-queue" ⟨[], 0⟩).1,
        (SingletonMeta.call "ListQueue" "llm-queue" ⟨[], 0⟩).2.1, false)) ∧
    (SingletonMeta.call "ListQueue" "other"
        ((SingletonMeta.call "ListQueue" "llm-queue" ⟨[], 0⟩).2.1)).1 ≠
      (SingletonMeta.call "ListQueue" "llm-queue" ⟨[], 0⟩).1 :=
  singleton_per_key "ListQueue" "llm-queue" "ListQueue" "other" ⟨[], 0⟩
    (by constructor <;> simp [SingletonInv]) (by simp)

/-- C3 evaluation at a failing input: for a model absent from the catalog the
decorated `call` runs the existence check on both tenacity attempts (two
checks, not one), never issues the generation request, and the failure
surfaces as tenacity's `RetryError` wrapping the `ModelNotFoundError` instead
of the bare immediate error. -/
theorem call_missing_model_retries (api : Nat → Except PyExc String) :
    BaseLLMProvider.call sampleCatalog "missing-model".data api =
      (.error (.retryError (.modelNotFoundError "Model missing-model not found.")),
        ⟨2, 0⟩) := by
  have hchk : check_model_exists sampleCatalog "missing-model".data = false := by decide
  simp [BaseLLMProvider.call, callAttempt, hchk]

/-! ### Claim C8: provider registry errors -/

/-- C8 counterexample: selecting an unknown provider raises
`ModelNotFoundError` — the very same exception class as the model-absent
failure inside `call` — so the two failures are not distinct error kinds. -/
theorem provider_not_found_error_kind :
    ProviderFactory.get_provider "nonexistent" =
      .error (.modelNotFoundError "Provider nonexistent not found.") ∧
    ∃ e1 e2 : PyExc,
      ProviderFactory.get_provider "nonexistent" = .error e1 ∧
      (callAttempt [] "m".data (.ok "resp")).1 = .error e2 ∧
      e1.className = e2.className := by
  refine ⟨rfl, .modelNotFoundError "Provider nonexistent not found.",
    .modelNotFoundError "Model m not found.", rfl, ?_, rfl⟩
  rfl

/-- C8 amended: an unknown provider name raises `ModelNotFoundError` with a
"Provider ... not found." message (same exception class as Model Not Found,
distinct only in message), and every registered name yields its provider. -/
theorem get_provider_amended (name : String) :
    (ProviderFactory.PROVIDERS.lookup name = none →
      ProviderFactory.get_provider name =
        .error (.modelNotFoundError ("Provider " ++ name ++ " not found."))) ∧
    (∀ p, ProviderFactory.PROVIDERS.lookup name = some p →
      ProviderFactory.get_provider name = .ok p) := by
  constructor
  · intro h
    simp [ProviderFactory.get_provider, h]
  · intro p h
    simp [ProviderFactory.get_provider, h]

theorem get_provider_amended_witness :
    ProviderFactory.get_provider "openai" = .ok .openAIProvider ∧
    ProviderFactory.get_provider "mistral" =
      .error (.modelNotFoundError ("Provider " ++ "mistral" ++ " not found.")) :=
  ⟨(get_provider_amended "openai").2 .openAIProvider rfl,
    (get_provider_amended "mistral").1 rfl⟩

/-- `subWsRuns` keeps the head and filters the tail against it. -/
theorem subWsRuns_cons : ∀ (t : List Char) (c : Char),
    subWsRuns (c :: t) = c :: keepAfter c t
  | [], c => by simp [subWsRuns, keepAfter]
  | b :: t, c => by
      by_cases hws : pySpace c ∧ c = b
      · rw [subWsRuns, if_pos hws, subWsRuns_cons t c]
        obtain ⟨hsp, hcb⟩ := hws
        rw [keepAfter, if_pos ⟨hcb ▸ hsp, hcb.symm⟩]
        subst hcb
        rfl
      · have hbc : ¬(pySpace b ∧ b = c) := fun h => hws ⟨h.2 ▸ h.1, h.2.symm⟩
        rw [subWsRuns, if_neg hws, subWsRuns_cons t b, keepAfter, if_neg hbc]

/-- `subWsRuns` is `keepAfter` seeded with any non-whitespace character. -/
theorem subWsRuns_eq_keepAfter (l : List Char) (p : Char)
    (hp : pySpace p = false) : subWsRuns l = keepAfter p l := by
  cases l with
  | nil => simp [subWsRuns, keepAfter]
  | cons c t =>
      rw [subWsRuns_cons, keepAfter,
        if_neg (fun h => by rw [h.2] at h; simp [hp] at h)]

theorem keepAfter_append : ∀ (u : List Char) (p : Char) (v : List Char),
    keepAfter p (u ++ v) = keepAfter p u ++ keepAfter (u.getLastD p) v
  | [], p, v => by simp [keepAfter]
  | c :: u', p, v => by
      rw [List.cons_append, keepAfter, keepAfter]
      by_cases h : pySpace c ∧ c = p
      · rw [if_pos h, if_pos h, keepAfter_append u' c v, List.getLastD_cons]
      · rw [if_neg h, if_neg h, keepAfter_append u' c v, List.getLastD_cons,
          List.cons_append]

theorem keepAfter_of_cleanFrom : ∀ (l : List Char) (p : Char),
    cleanFrom p l = true → keepAfter p l = l
  | [], _, _ => rfl
  | c :: t, p, h => by
      rw [cleanFrom] at h
      by_cases hc : pySpace c ∧ c = p
      · rw [if_pos hc] at h
        exact absurd h (by simp)
      · rw [if_neg hc] at h
        rw [keepAfter, if_neg hc, keepAfter_of_cleanFrom t c h]

theorem cleanFrom_append : ∀ (u : List Char) (p : Char) (v : List Char),
    cleanFrom p (u ++ v) = (cleanFrom p u && cleanFrom (u.getLastD p) v)
  | [], p, v => by simp [cleanFrom]
  | c :: u', p, v => by
      rw [List.cons_append, cleanFrom, cleanFrom]
      by_cases h : pySpace c ∧ c = p
      · rw [if_pos h, if_pos h, Bool.false_and]
      · rw [if_neg h, if_neg h, cleanFrom_append u' c v, List.getLastD_cons]

theorem cleanFrom_of_all_nonws : ∀ (l : List Char) (p : Char),
    (∀ c ∈ l, pySpace c = false) → cleanFrom p l = true
  | [], _, _ => rfl
  | c :: t, p, h => by
      rw [cleanFrom, if_neg (fun hc => by simp [h c (by simp)] at hc)]
      exact cleanFrom_of_all_nonws t c (fun d hd => h d (by simp [hd]))

theorem cleanFrom_tail_of_noWsRun : ∀ (t : List Char) (c : Char),
    noWsRun (c :: t) → cleanFrom c t = true
  | [], _, _ => rfl
  | b :: t', c, h => by
      obtain ⟨h1, h2⟩ := h
      have hbc : ¬(pySpace b ∧ b = c) := fun hb => h1 ⟨hb.2 ▸ hb.1, hb.2.symm⟩
      rw [cleanFrom, if_neg hbc]
      exact cleanFrom_tail_of_noWsRun t' b h2

theorem cleanFrom_of_noWsRun (l : List Char) (p : Char)
    (hp : pySpace p = false) (h : noWsRun l) : cleanFrom p l = true := by
  cases l with
  | nil => rfl
  | cons c t =>
      rw [cleanFrom, if_neg (fun hc => by rw [hc.2] at hc; simp [hp] at hc)]
      exact cleanFrom_tail_of_noWsRun t c h

theorem noWsRun_of_cleanFrom : ∀ (l : List Char) (p : Char),
    cleanFrom p l = true → noWsRun l
  | [], _, _ => trivial
  | [c], _, _ => trivial
  | c :: b :: t, p, h => by
      rw [cleanFrom] at h
      by_cases hc : pySpace c ∧ c = p
      · rw [if_pos hc] at h
        exact absurd h (by simp)
      · rw [if_neg hc] at h
        have hcb : ¬(pySpace c ∧ c = b) := by
          intro hh
          have := h
          rw [cleanFrom, if_pos ⟨hh.2 ▸ hh.1, hh.2.symm⟩] at this
          exact absurd this (by simp)
        exact ⟨hcb, noWsRun_of_cleanFrom (b :: t) c h⟩

theorem keepAfter_length_le : ∀ (l : List Char) (p : Char),
    (keepAfter p l).length ≤ l.length
  | [], _ => Nat.le_refl _
  | c :: t, p => by
      rw [keepAfter]
      by_cases h : pySpace c ∧ c = p
      · rw [if_pos h]
        exact Nat.le_succ_of_le (keepAfter_length_le t c)
      · rw [if_neg h]
        simpa using keepAfter_length_le t c

theorem keepAfter_length_lt : ∀ (l : List Char) (p : Char),
    cleanFrom p l = false → (keepAfter p l).length < l.length
  | [], p, h => by simp [cleanFrom] at h
  | c :: t, p, h => by
      rw [cleanFrom] at h
      rw [keepAfter]
      by_cases hc : pySpace c ∧ c = p
      · rw [if_pos hc]
        exact Nat.lt_succ_of_le (keepAfter_length_le t c)
      · rw [if_neg hc] at h
        rw [if_neg hc]
        simpa using keepAfter_length_lt t c h

theorem mem_of_mem_keepAfter : ∀ {l : List Char} {p x : Char},
    x ∈ keepAfter p l → x ∈ l := by
  intro l
  induction l with
  | nil => intro p x h; simp [keepAfter] at h
  | cons c t ih =>
      intro p x h
      rw [keepAfter] at h
      by_cases hc : pySpace c ∧ c = p
      · rw [if_pos hc] at h
        exact List.mem_cons_of_mem c (ih h)
      · rw [if_neg hc] at h
        rcases List.mem_cons.mp h with h | h
        · exact h ▸ List.mem_cons_self c t
        · exact List.mem_cons_of_mem c (ih h)

/-! ### Strip lemmas -/

theorem dropLeadWs_append : ∀ (u : List Char) (c : Char) (v : List Char),
    pySpace c = false → dropLeadWs (u ++ c :: v) = dropLeadWs u ++ c :: v
  | [], c, v, hc => by simp [dropLeadWs, List.dropWhile_cons, hc]
  | a :: u', c, v, hc => by
      by_cases ha : pySpace a
      · simp only [dropLeadWs, List.cons_append, List.dropWhile_cons, ha, if_true]
        exact dropLeadWs_append u' c v hc
      · simp only [dropLeadWs, List.cons_append, List.dropWhile_cons, ha,
          if_false, Bool.false_eq_true]

theorem dropTrailWs_append (u : List Char) (c : Char) (v : List Char)
    (hc : pySpace c = false) :
    dropTrailWs ((u ++ [c]) ++ v) = (u ++ [c]) ++ dropTrailWs v := by
  unfold dropTrailWs
  rw [List.reverse_append, List.reverse_append, List.reverse_singleton]
  have h1 : (v.reverse ++ ([c] ++ u.reverse)) = v.reverse ++ c :: u.reverse := by simp
  rw [h1]
  have h2 : List.dropWhile pySpace (v.reverse ++ c :: u.reverse) =
      List.dropWhile pySpace v.reverse ++ c :: u.reverse :=
    dropLeadWs_append v.reverse c u.reverse hc
  rw [h2, List.reverse_append, List.reverse_cons, List.reverse_reverse]

theorem pyStrip_cons_concat (c d : Char) (m : List Char)
    (hc : pySpace c = false) (hd : pySpace d = false) :
    pyStrip (c :: (m ++ [d])) = c :: (m ++ [d]) := by
  unfold pyStrip
  rw [show (c :: (m ++ [d])) = [] ++ c :: (m ++ [d]) from rfl,
    dropLeadWs_append [] c (m ++ [d]) hc]
  rw [show dropLeadWs [] ++ c :: (m ++ [d]) = ((c :: m) ++ [d]) ++ [] by
    simp [dropLeadWs]]
  rw [dropTrailWs_append (c :: m) d [] hd]
  simp [dropTrailWs]

theorem pyStrip_infix (l : List Char) : ∃ x y, l = x ++ pyStrip l ++ y := by
  refine ⟨l.takeWhile pySpace, (((dropLeadWs l).reverse).takeWhile pySpace).reverse, ?_⟩
  unfold pyStrip dropTrailWs dropLeadWs
  conv_lhs => rw [← List.takeWhile_append_dropWhile (p := pySpace) (l := l)]
  rw [List.append_assoc]
  congr 1
  conv_lhs =>
    rw [← List.reverse_reverse (l.dropWhile pySpace),
      ← List.takeWhile_append_dropWhile (p := pySpace)
        (l := (l.dropWhile pySpace).reverse),
      List.reverse_append]

/-! ### Regex search lemmas -/

theorem leadsWith_append_self : ∀ (p r : List Char), leadsWith p (p ++ r) = true
  | [], r => rfl
  | x :: ps, r => by simp [leadsWith, leadsWith_append_self ps r]

theorem exists_of_leadsWith : ∀ (p l : List Char), leadsWith p l = true →
    ∃ r, l = p ++ r
  | [], l, _ => ⟨l, rfl⟩
  | x :: ps, [], h => by simp [leadsWith] at h
  | x :: ps, c :: t, h => by
      simp only [leadsWith, Bool.and_eq_true, decide_eq_true_eq] at h
      obtain ⟨r, hr⟩ := exists_of_leadsWith ps t h.2
      exact ⟨r, by rw [h.1, hr]; rfl⟩

theorem leadsWith_cons_false (x c : Char) (ps t : List Char) (h : x ≠ c) :
    leadsWith (x :: ps) (c :: t) = false := by
  simp [leadsWith, h]

theorem findClose_some_decomp : ∀ (l b r : List Char),
    findClose l = some (b, r) → l = b ++ "```".data ++ r := by
  intro l
  induction l with
  | nil => intro b r h; simp [findClose] at h
  | cons c t ih =>
      intro b r h
      rw [findClose] at h
      by_cases hl : leadsWith "```".data (c :: t) = true
      · rw [if_pos hl] at h
        obtain ⟨rest, hrest⟩ := exists_of_leadsWith _ _ hl
        injection h with h1
        injection h1 with hb hr
        subst hb
        have ht : t = '`' :: '`' :: rest := by
          have := hrest
          rw [show ("```".data ++ rest) = '`' :: '`' :: '`' :: rest from rfl] at this
          exact (List.cons.injEq .. ▸ this).2
        subst hr
        rw [hrest, ht]
        rfl
      · rw [if_neg hl] at h
        cases hfc : findClose t with
        | none => rw [hfc] at h; simp at h
        | some p =>
            obtain ⟨b', r'⟩ := p
            rw [hfc] at h
            injection h with h1
            injection h1 with hb hr
            subst hr
            rw [← hb, List.cons_append, List.cons_append, ih b' r' hfc]

theorem findClose_btFree : ∀ (body : List Char) (v : List Char),
    backtickChar ∉ body → findClose (body ++ "```".data ++ v) = some (body, v)
  | [], v, _ => by
      rw [show ([] ++ "```".data ++ v : List Char) =
        '`' :: ('`' :: '`' :: v) from rfl]
      rw [findClose]
      rw [if_pos (by
        rw [show ('`' :: ('`' :: '`' :: v) : List Char) = "```".data ++ v from rfl]
        exact leadsWith_append_self _ v)]
      rfl
  | c :: body', v, h => by
      have hc : c ≠ backtickChar := fun hh => h (hh ▸ List.mem_cons_self c body')
      rw [List.cons_append, List.cons_append, findClose]
      rw [if_neg (by
        rw [show ("```".data : List Char) = '`' :: "``".data from rfl]
        rw [leadsWith_cons_false '`' c _ _ (fun hh => hc (hh ▸ rfl))]
        simp)]
      rw [findClose_btFree body' v (fun hh => h (List.mem_cons_of_mem c hh))]

theorem backtickChar_lit : backtickChar = '`' := rfl

theorem tryMatchAt_json (body v : List Char) (hb : backtickChar ∉ body) :
    tryMatchAt ("```json".data ++ (body ++ ("```".data ++ v))) = some (.g1 body) := by
  unfold tryMatchAt
  rw [if_pos (leadsWith_append_self "```json".data _)]
  rw [show (7 : Nat) = "```json".data.length from rfl, List.drop_left]
  rw [show (body ++ ("```".data ++ v)) = body ++ "```".data ++ v by simp]
  rw [findClose_btFree body v hb]

theorem tryMatchAt_none_of_head_ne (c : Char) (t : List Char)
    (h : c ≠ backtickChar) : tryMatchAt (c :: t) = none := by
  unfold tryMatchAt tryMatchPlainAt
  rw [show ("```json".data : List Char) = '`' :: "``json".data from rfl,
    show ("```".data : List Char) = '`' :: "``".data from rfl]
  rw [leadsWith_cons_false '`' c _ _ (fun hh => h (hh ▸ rfl)),
    leadsWith_cons_false '`' c _ _ (fun hh => h (hh ▸ rfl))]
  simp

theorem reSearch_append : ∀ (u rest : List Char), backtickChar ∉ u →
    reSearch (u ++ rest) = reSearch rest
  | [], rest, _ => rfl
  | c :: u', rest, h => by
      rw [List.cons_append, reSearch,
        tryMatchAt_none_of_head_ne c _ (fun hh => h (hh ▸ List.mem_cons_self c u'))]
      exact reSearch_append u' rest (fun hh => h (List.mem_cons_of_mem c hh))

theorem reSearch_at_fence (body v : List Char) (hb : backtickChar ∉ body) :
    reSearch ("```json".data ++ (body ++ ("```".data ++ v))) = some (.g1 body) := by
  rw [show ("```json".data ++ (body ++ ("```".data ++ v)) : List Char) =
    '`' :: ("``json".data ++ (body ++ ("```".data ++ v))) from rfl]
  rw [reSearch]
  rw [show ('`' :: ("``json".data ++ (body ++ ("```".data ++ v))) : List Char) =
    "```json".data ++ (body ++ ("```".data ++ v)) from rfl]
  rw [tryMatchAt_json body v hb]

theorem subWsRuns_eq_keepAfterStart (l : List Char) :
    subWsRuns l = keepAfterStart l := by
  cases l with
  | nil => simp [subWsRuns, keepAfterStart]
  | cons c t => rw [subWsRuns_cons, keepAfterStart]

theorem keepAfter_fenceJson (p : Char) (X : List Char) :
    keepAfter p ("```json".data ++ X) = "```json".data ++ keepAfter 'n' X := by
  rw [keepAfter_append "```json".data p X,
    keepAfter_of_cleanFrom _ p (cleanFrom_of_all_nonws _ p (by decide)),
    show ("```json".data.getLastD p) = 'n' from rfl]

theorem keepAfter_fence (p : Char) (X : List Char) :
    keepAfter p ("```".data ++ X) = "```".data ++ keepAfter backtickChar X := by
  rw [keepAfter_append "```".data p X,
    keepAfter_of_cleanFrom _ p (cleanFrom_of_all_nonws _ p (by decide)),
    show ("```".data.getLastD p) = backtickChar from rfl]

/-- How `normalize_text` acts on a response holding a json-tagged fenced
block: the fences survive unchanged, the payload is filtered by `keepAfter`
seeded with the `'n'` that closes the `` ```json `` tag, and the
surroundings are filtered and stripped. -/
theorem normalize_shape (pre body post : List Char) :
    normalize_text (pre ++ ("```json".data ++ (body ++ ("```".data ++ post)))) =
      dropLeadWs (keepAfterStart pre) ++ ("```json".data ++ (keepAfter 'n' body ++
        ("```".data ++ dropTrailWs (keepAfter backtickChar post)))) := by
  have hmid : ∀ q : Char, keepAfter q ("```json".data ++ (body ++ ("```".data ++ post))) =
      "```json".data ++ (keepAfter 'n' body ++ ("```".data ++ keepAfter backtickChar post)) := by
    intro q
    rw [keepAfter_fenceJson q, keepAfter_append body 'n' _, keepAfter_fence _ post]
  have hsub : subWsRuns (pre ++ ("```json".data ++ (body ++ ("```".data ++ post)))) =
      keepAfterStart pre ++ ("```json".data ++ (keepAfter 'n' body ++
        ("```".data ++ keepAfter backtickChar post))) := by
    cases pre with
    | nil =>
        rw [List.nil_append, subWsRuns_eq_keepAfter _ 'A' (by decide), hmid 'A',
          keepAfterStart, List.nil_append]
    | cons c pre' =>
        rw [List.cons_append, subWsRuns_cons, keepAfterStart,
          keepAfter_append pre' c _, hmid (pre'.getLastD c)]
        simp
  unfold normalize_text pyStrip
  rw [hsub]
  set P := keepAfterStart pre with hP
  set B1 := keepAfter 'n' body with hB1
  set P1 := keepAfter backtickChar post with hP1
  have hcons : P ++ ("```json".data ++ (B1 ++ ("```".data ++ P1))) =
      P ++ '`' :: ("``json".data ++ (B1 ++ ("```".data ++ P1))) := rfl
  rw [hcons, dropLeadWs_append P '`' _ (by decide)]
  have hsplit : dropLeadWs P ++ '`' :: ("``json".data ++ (B1 ++ ("```".data ++ P1))) =
      ((((dropLeadWs P ++ "```json".data) ++ B1) ++ "``".data) ++ ['`']) ++ P1 := by
    simp only [List.append_assoc]
    rfl
  rw [hsplit, dropTrailWs_append _ '`' P1 (by decide)]
  simp only [List.append_assoc]
  rfl

theorem skipJsonWs_cons (c : Char) (t : List Char) (h : jsonWs c = false) :
    skipJsonWs (c :: t) = c :: t := by
  simp [skipJsonWs, List.dropWhile_cons, h]

theorem parseJString_plain : ∀ (sc : List Char) (r : List Char),
    (∀ c ∈ sc, plainChar c = true) →
    parseJString (sc ++ '"' :: r) = some (sc, r)
  | [], r, _ => by
      rw [List.nil_append, parseJString.eq_def]
      simp
  | c :: sc', r, h => by
      have hc := h c (List.mem_cons_self c sc')
      simp only [plainChar, decide_eq_true_eq, Bool.and_eq_true, decide_not,
        Bool.not_eq_true', decide_eq_false_iff_not] at hc
      rw [List.cons_append, parseJString.eq_def]
      dsimp only
      rw [if_neg hc.1, if_neg hc.2.1, if_neg hc.2.2.2]
      rw [parseJString_plain sc' r (fun d hd => h d (List.mem_cons_of_mem c hd))]

theorem parseJValue_plainString (f : Nat) (S r : List Char)
    (h : ∀ c ∈ S, plainChar c = true) :
    parseJValue (f + 1) ('"' :: (S ++ '"' :: r)) = some (.jstr S, r) := by
  rw [parseJValue]
  rw [skipJsonWs_cons '"' _ (by decide)]
  dsimp only
  rw [if_pos rfl, parseJString_plain S r h]

theorem parseJArrayItems_pair (f : Nat) (t1 t2 r : List Char)
    (h1 : ∀ c ∈ t1, plainChar c = true) (h2 : ∀ c ∈ t2, plainChar c = true) :
    parseJArrayItems (f + 3) ('"' :: (t1 ++ '"' :: ',' :: '"' :: (t2 ++ '"' :: ']' :: r))) =
      some ([.jstr t1, .jstr t2], r) := by
  rw [parseJArrayItems]
  rw [show (f + 2) = (f + 1) + 1 from rfl]
  rw [parseJValue_plainString (f + 1) t1 (',' :: '"' :: (t2 ++ '"' :: ']' :: r)) h1]
  dsimp only
  rw [skipJsonWs_cons ',' _ (by decide)]
  dsimp only
  rw [if_pos rfl]
  rw [parseJArrayItems]
  rw [parseJValue_plainString f t2 (']' :: r) h2]
  dsimp only
  rw [skipJsonWs_cons ']' _ (by decide)]
  dsimp only
  rw [if_neg (by decide), if_pos rfl]

theorem parseJValue_pairArray (f : Nat) (t1 t2 r : List Char)
    (h1 : ∀ c ∈ t1, plainChar c = true) (h2 : ∀ c ∈ t2, plainChar c = true) :
    parseJValue (f + 4) ('[' :: ('"' :: (t1 ++ '"' :: ',' :: '"' :: (t2 ++ '"' :: ']' :: r)))) =
      some (.jarr [.jstr t1, .jstr t2], r) := by
  rw [parseJValue]
  rw [skipJsonWs_cons '[' _ (by decide)]
  dsimp only
  rw [if_neg (by decide), if_pos rfl]
  rw [skipJsonWs_cons '"' _ (by decide)]
  dsimp only
  rw [if_neg (by decide)]
  rw [parseJArrayItems_pair f t1 t2 r h1 h2]

theorem parseJObjMembers_summaryTags (f : Nat) (S t1 t2 r : List Char)
    (hS : ∀ c ∈ S, plainChar c = true)
    (h1 : ∀ c ∈ t1, plainChar c = true) (h2 : ∀ c ∈ t2, plainChar c = true) :
    parseJObjMembers (f + 6)
        ('"' :: ('s' :: 'u' :: 'm' :: 'm' :: 'a' :: 'r' :: 'y' :: '"' :: ':' :: '"' ::
          (S ++ '"' :: ',' :: '"' :: 't' :: 'a' :: 'g' :: 's' :: '"' :: ':' :: '[' :: '"' ::
            (t1 ++ '"' :: ',' :: '"' :: (t2 ++ '"' :: ']' :: '}' :: r))))) =
      some ([("summary".data, .jstr S), ("tags".data, .jarr [.jstr t1, .jstr t2])], r) := by
  rw [parseJObjMembers]
  rw [skipJsonWs_cons '"' _ (by decide)]
  dsimp only
  rw [if_pos rfl]
  rw [show ('s' :: 'u' :: 'm' :: 'm' :: 'a' :: 'r' :: 'y' :: '"' :: ':' :: '"' ::
      (S ++ '"' :: ',' :: '"' :: 't' :: 'a' :: 'g' :: 's' :: '"' :: ':' :: '[' :: '"' ::
        (t1 ++ '"' :: ',' :: '"' :: (t2 ++ '"' :: ']' :: '}' :: r))) : List Char) =
    "summary".data ++ '"' :: (':' :: '"' ::
      (S ++ '"' :: ',' :: '"' :: 't' :: 'a' :: 'g' :: 's' :: '"' :: ':' :: '[' :: '"' ::
        (t1 ++ '"' :: ',' :: '"' :: (t2 ++ '"' :: ']' :: '}' :: r)))) from rfl]
  rw [parseJString_plain "summary".data _ (by decide)]
  dsimp only
  rw [skipJsonWs_cons ':' _ (by decide)]
  dsimp only
  rw [if_pos rfl]
  rw [show (f + 5) = (f + 4) + 1 from rfl]
  rw [parseJValue_plainString (f + 4) S _ hS]
  dsimp only
  rw [skipJsonWs_cons ',' _ (by decide)]
  dsimp only
  rw [if_pos rfl]
  rw [parseJObjMembers]
  rw [skipJsonWs_cons '"' _ (by decide)]
  dsimp only
  rw [if_pos rfl]
  rw [show ('t' :: 'a' :: 'g' :: 's' :: '"' :: ':' :: '[' :: '"' ::
      (t1 ++ '"' :: ',' :: '"' :: (t2 ++ '"' :: ']' :: '}' :: r)) : List Char) =
    "tags".data ++ '"' :: (':' :: '[' :: '"' ::
      (t1 ++ '"' :: ',' :: '"' :: (t2 ++ '"' :: ']' :: '}' :: r))) from rfl]
  rw [parseJString_plain "tags".data _ (by decide)]
  dsimp only
  rw [skipJsonWs_cons ':' _ (by decide)]
  dsimp only
  rw [if_pos rfl]
  rw [parseJValue_pairArray f t1 t2 ('}' :: r) h1 h2]
  dsimp only
  rw [skipJsonWs_cons '}' _ (by decide)]
  dsimp only
  rw [if_neg (by decide), if_pos rfl]

theorem parseJValue_jsonBody (f : Nat) (S t1 t2 r : List Char)
    (hS : ∀ c ∈ S, plainChar c = true)
    (h1 : ∀ c ∈ t1, plainChar c = true) (h2 : ∀ c ∈ t2, plainChar c = true) :
    parseJValue (f + 7) (jsonBody S t1 t2 ++ r) =
      some (summaryTagsJson S t1 t2, r) := by
  rw [show (jsonBody S t1 t2 ++ r : List Char) = '{' :: ('"' :: 's' :: 'u' :: 'm' ::
    'm' :: 'a' :: 'r' :: 'y' :: '"' :: ':' :: '"' ::
      (S ++ '"' :: ',' :: '"' :: 't' :: 'a' :: 'g' :: 's' :: '"' :: ':' :: '[' :: '"' ::
        (t1 ++ '"' :: ',' :: '"' :: (t2 ++ '"' :: ']' :: '}' :: r)))) by
    simp [jsonBody]]
  rw [parseJValue]
  rw [skipJsonWs_cons '{' _ (by decide)]
  dsimp only
  rw [if_neg (by decide), if_neg (by decide), if_pos rfl]
  rw [skipJsonWs_cons '"' _ (by decide)]
  dsimp only
  rw [if_neg (by decide)]
  rw [parseJObjMembers_summaryTags f S t1 t2 r hS h1 h2]
  rfl

/-- `json.loads` of the compact summary/tags object with plain payload
characters. -/
theorem json_loads_jsonBody (S t1 t2 : List Char)
    (hS : ∀ c ∈ S, plainChar c = true)
    (h1 : ∀ c ∈ t1, plainChar c = true) (h2 : ∀ c ∈ t2, plainChar c = true) :
    json_loads (jsonBody S t1 t2) = .ok (summaryTagsJson S t1 t2) := by
  unfold json_loads
  have h7 : 7 ≤ 2 * (jsonBody S t1 t2).length + 4 := by
    have h2l : 2 ≤ (jsonBody S t1 t2).length := by
      simp [jsonBody]
    linarith
  rw [show (2 * (jsonBody S t1 t2).length + 4) =
    (2 * (jsonBody S t1 t2).length + 4 - 7) + 7 from (Nat.sub_add_cancel h7).symm]
  rw [show (jsonBody S t1 t2 : List Char) = jsonBody S t1 t2 ++ [] by simp]
  rw [parseJValue_jsonBody _ S t1 t2 [] hS h1 h2]
  simp [skipJsonWs]

/-! ### Claim C9: normalize_text -/

/-- C9: `normalize_text` collapses each run of a repeated identical
whitespace character to one occurrence and strips the ends — formally it
equals stripping the spec-side collapse — and on input with no such run
(in particular heterogeneous whitespace sequences) the collapse changes
nothing, so only the ends are stripped. -/
theorem normalize_text_spec (l : List Char) :
    normalize_text l = pyStrip (specCollapse l) ∧
    (noWsRun l → normalize_text l = pyStrip l) := by
  constructor
  · unfold normalize_text
    rw [subWsRuns_eq_specCollapse]
  · intro h
    unfold normalize_text
    rw [subWsRuns_eq_specCollapse, specCollapse_of_noWsRun l h]

/-- Witness at the mixed-whitespace input `"a \t b"` (the space-tab-space
sequence is heterogeneous, so nothing collapses and nothing is stripped). -/
theorem normalize_text_spec_witness :
    normalize_text "a \t b".data = pyStrip (specCollapse "a \t b".data) ∧
    normalize_text "a \t b".data = pyStrip "a \t b".data :=
  ⟨(normalize_text_spec "a \t b".data).1,
    (normalize_text_spec "a \t b".data).2 (by decide)⟩

/-! ### Extraction over the normalized shape -/

theorem extract_json_shape (preN B1 postN : List Char)
    (hpre : backtickChar ∉ preN) (hb : backtickChar ∉ B1) (hne : B1 ≠ []) :
    extract_json (preN ++ ("```json".data ++ (B1 ++ ("```".data ++ postN)))) =
      .ok (some (pyStrip B1)) := by
  unfold extract_json
  rw [reSearch_append preN _ hpre, reSearch_at_fence B1 postN hb]
  cases B1 with
  | nil => exact absurd rfl hne
  | cons c t => rfl

/-! ### Payload helper lemmas -/

theorem cleanFrom_cons_nonws (q c : Char) (X : List Char)
    (hc : pySpace c = false) : cleanFrom q (c :: X) = cleanFrom c X := by
  rw [cleanFrom, if_neg (fun h => by rw [h.1] at hc; exact absurd hc (by simp))]

theorem keepAfter_cons_nonws_prev (p c : Char) (t : List Char)
    (hp : pySpace p = false) :
    keepAfter p (c :: t) = c :: keepAfter c t := by
  rw [keepAfter, if_neg (fun h => by rw [h.2] at h; rw [hp] at h; simp at h)]

theorem keepAfter_ne_nil (p : Char) (l : List Char) (hp : pySpace p = false)
    (hl : l ≠ []) : keepAfter p l ≠ [] := by
  cases l with
  | nil => exact absurd rfl hl
  | cons c t =>
      rw [keepAfter_cons_nonws_prev p c t hp]
      simp

theorem dropLeadWs_length_le (l : List Char) : (dropLeadWs l).length ≤ l.length :=
  (List.dropWhile_suffix pySpace).sublist.length_le

theorem dropTrailWs_length_le (l : List Char) : (dropTrailWs l).length ≤ l.length := by
  unfold dropTrailWs
  rw [List.length_reverse]
  calc (l.reverse.dropWhile pySpace).length ≤ l.reverse.length :=
        (List.dropWhile_suffix pySpace).sublist.length_le
    _ = l.length := List.length_reverse l

theorem pyStrip_length_le (l : List Char) : (pyStrip l).length ≤ l.length :=
  le_trans (dropTrailWs_length_le _) (dropLeadWs_length_le l)

theorem mem_of_mem_keepAfterStart {l : List Char} {x : Char}
    (h : x ∈ keepAfterStart l) : x ∈ l := by
  cases l with
  | nil => simp [keepAfterStart] at h
  | cons c t =>
      rw [keepAfterStart] at h
      rcases List.mem_cons.mp h with h | h
      · exact h ▸ List.mem_cons_self c t
      · exact List.mem_cons_of_mem c (mem_of_mem_keepAfter h)

theorem mem_of_mem_dropLeadWs {l : List Char} {x : Char}
    (h : x ∈ dropLeadWs l) : x ∈ l :=
  (List.dropWhile_suffix pySpace).sublist.mem h

/-- The backtick stays absent through the pre-fence normalization. -/
theorem bt_not_mem_normPre {pre : List Char} (h : backtickChar ∉ pre) :
    backtickChar ∉ dropLeadWs (keepAfterStart pre) :=
  fun hm => h (mem_of_mem_keepAfterStart (mem_of_mem_dropLeadWs hm))

/-- Characters of `jsonBody` are skeleton characters or payload characters. -/
theorem mem_jsonBody {S t1 t2 : List Char} {x : Char}
    (h : x ∈ jsonBody S t1 t2) :
    x ∈ S ∨ x ∈ t1 ∨ x ∈ t2 ∨ x ∈ "\x7b\x7d[]:,\"summarytags".data := by
  have hshape : jsonBody S t1 t2 = "\x7b\"summary\":\"".data ++ (S ++
      ("\",\"tags\":[\"".data ++ (t1 ++ ("\",\"".data ++ (t2 ++ "\"]\x7d".data))))) := rfl
  rw [hshape] at h
  simp only [List.mem_append] at h
  have hA : ∀ y ∈ "\x7b\"summary\":\"".data, y ∈ "\x7b\x7d[]:,\"summarytags".data := by decide
  have hB : ∀ y ∈ "\",\"tags\":[\"".data, y ∈ "\x7b\x7d[]:,\"summarytags".data := by decide
  have hC : ∀ y ∈ "\",\"".data, y ∈ "\x7b\x7d[]:,\"summarytags".data := by decide
  have hD : ∀ y ∈ "\"]\x7d".data, y ∈ "\x7b\x7d[]:,\"summarytags".data := by decide
  rcases h with h | h | h | h | h | h | h
  · exact Or.inr (Or.inr (Or.inr (hA x h)))
  · exact Or.inl h
  · exact Or.inr (Or.inr (Or.inr (hB x h)))
  · exact Or.inr (Or.inl h)
  · exact Or.inr (Or.inr (Or.inr (hC x h)))
  · exact Or.inr (Or.inr (Or.inl h))
  · exact Or.inr (Or.inr (Or.inr (hD x h)))

theorem bt_not_mem_jsonBody {S t1 t2 : List Char}
    (hS : ∀ c ∈ S, plainChar c = true) (h1 : ∀ c ∈ t1, plainChar c = true)
    (h2 : ∀ c ∈ t2, plainChar c = true) :
    backtickChar ∉ jsonBody S t1 t2 := by
  intro hm
  rcases mem_jsonBody hm with h | h | h | h
  · have := hS _ h
    simp [plainChar] at this
  · have := h1 _ h
    simp [plainChar] at this
  · have := h2 _ h
    simp [plainChar] at this
  · exact absurd h (by decide)

/-- With run-free payloads the whole object is run-free from the tag's
closing `n`. -/
theorem cleanFrom_jsonBody (S t1 t2 : List Char)
    (hS : noWsRun S) (h1 : noWsRun t1) (h2 : noWsRun t2) :
    cleanFrom 'n' (jsonBody S t1 t2) = true := by
  rw [jsonBody]
  rw [cleanFrom_cons_nonws _ '{' _ (by decide), cleanFrom_cons_nonws _ '"' _ (by decide),
    cleanFrom_cons_nonws _ 's' _ (by decide), cleanFrom_cons_nonws _ 'u' _ (by decide),
    cleanFrom_cons_nonws _ 'm' _ (by decide), cleanFrom_cons_nonws _ 'm' _ (by decide),
    cleanFrom_cons_nonws _ 'a' _ (by decide), cleanFrom_cons_nonws _ 'r' _ (by decide),
    cleanFrom_cons_nonws _ 'y' _ (by decide), cleanFrom_cons_nonws _ '"' _ (by decide),
    cleanFrom_cons_nonws _ ':' _ (by decide), cleanFrom_cons_nonws _ '"' _ (by decide)]
  rw [cleanFrom_append S '"' _]
  rw [cleanFrom_of_noWsRun S '"' (by decide) hS, Bool.true_and]
  rw [cleanFrom_cons_nonws _ '"' _ (by decide), cleanFrom_cons_nonws _ ',' _ (by decide),
    cleanFrom_cons_nonws _ '"' _ (by decide), cleanFrom_cons_nonws _ 't' _ (by decide),
    cleanFrom_cons_nonws _ 'a' _ (by decide), cleanFrom_cons_nonws _ 'g' _ (by decide),
    cleanFrom_cons_nonws _ 's' _ (by decide), cleanFrom_cons_nonws _ '"' _ (by decide),
    cleanFrom_cons_nonws _ ':' _ (by decide), cleanFrom_cons_nonws _ '[' _ (by decide),
    cleanFrom_cons_nonws _ '"' _ (by decide)]
  rw [cleanFrom_append t1 '"' _]
  rw [cleanFrom_of_noWsRun t1 '"' (by decide) h1, Bool.true_and]
  rw [cleanFrom_cons_nonws _ '"' _ (by decide), cleanFrom_cons_nonws _ ',' _ (by decide),
    cleanFrom_cons_nonws _ '"' _ (by decide)]
  rw [cleanFrom_append t2 '"' _]
  rw [cleanFrom_of_noWsRun t2 '"' (by decide) h2, Bool.true_and]
  rw [cleanFrom_cons_nonws _ '"' _ (by decide), cleanFrom_cons_nonws _ ']' _ (by decide),
    cleanFrom_cons_nonws _ '}' _ (by decide)]
  rfl

theorem containsFencedBlock_cons (c : Char) {t : List Char}
    (h : containsFencedBlock t) : containsFencedBlock (c :: t) := by
  obtain ⟨u, b, v, hd⟩ := h
  exact ⟨c :: u, b, v, by rw [hd]; rfl⟩

theorem containsFencedBlock_mem {l : List Char}
    (h : containsFencedBlock l) : backtickChar ∈ l := by
  obtain ⟨u, b, v, hd⟩ := h
  rw [hd]
  simp [backtickChar_lit]

theorem tryMatchPlainAt_some_fb {l : List Char} {m : FenceMatch}
    (h : tryMatchPlainAt l = some m) : containsFencedBlock l := by
  unfold tryMatchPlainAt at h
  by_cases hl : leadsWith "```".data l = true
  · rw [if_pos hl] at h
    obtain ⟨rest, hrest⟩ := exists_of_leadsWith _ _ hl
    cases hfc : findClose (l.drop 3) with
    | none => rw [hfc] at h; simp at h
    | some p =>
        obtain ⟨b, r⟩ := p
        have hdrop : l.drop 3 = rest := by
          rw [hrest, show (3 : Nat) = "```".data.length from rfl, List.drop_left]
        rw [hdrop] at hfc
        have hre := findClose_some_decomp rest b r hfc
        exact ⟨[], b, r, by rw [hrest, hre]; simp⟩
  · rw [if_neg hl] at h
    simp at h

theorem tryMatchAt_some_fb {l : List Char} {m : FenceMatch}
    (h : tryMatchAt l = some m) : containsFencedBlock l := by
  unfold tryMatchAt at h
  by_cases hl : leadsWith "```json".data l = true
  · rw [if_pos hl] at h
    obtain ⟨rest, hrest⟩ := exists_of_leadsWith _ _ hl
    cases hfc : findClose (l.drop 7) with
    | none =>
        rw [hfc] at h
        exact tryMatchPlainAt_some_fb h
    | some p =>
        obtain ⟨b, r⟩ := p
        have hdrop : l.drop 7 = rest := by
          rw [hrest, show (7 : Nat) = "```json".data.length from rfl, List.drop_left]
        rw [hdrop] at hfc
        have hre := findClose_some_decomp rest b r hfc
        refine ⟨[], "json".data ++ b, r, ?_⟩
        rw [hrest, hre]
        simp
  · rw [if_neg hl] at h
    exact tryMatchPlainAt_some_fb h

theorem reSearch_some_fb : ∀ {l : List Char} {m : FenceMatch},
    reSearch l = some m → containsFencedBlock l := by
  intro l
  induction l with
  | nil => intro m h; simp [reSearch] at h
  | cons c t ih =>
      intro m h
      rw [reSearch] at h
      cases htr : tryMatchAt (c :: t) with
      | some m' => exact tryMatchAt_some_fb htr
      | none =>
          rw [htr] at h
          exact containsFencedBlock_cons c (ih h)

/-- If a non-whitespace previous character is in force, the head is always
kept. -/
theorem keepAfter_eq_cons {p x : Char} {l X : List Char}
    (hp : pySpace p = false) (h : keepAfter p l = x :: X) :
    ∃ t', l = x :: t' ∧ keepAfter x t' = X := by
  cases l with
  | nil => simp [keepAfter] at h
  | cons c t =>
      rw [keepAfter_cons_nonws_prev p c t hp] at h
      injection h with h1 h2
      exact ⟨t, by rw [h1], by rw [← h1, h2]⟩

/-- A closing fence in the collapse's output comes from one in its input. -/
theorem keepAfter_fence_transfer1 : ∀ (l : List Char) (p : Char)
    (b v : List Char), keepAfter p l = b ++ ("```".data ++ v) →
    ∃ b' v', l = b' ++ ("```".data ++ v')
  | [], p, b, v, h => by
      have := congrArg List.length h
      simp [keepAfter] at this
      linarith
  | c :: t, p, b, v, h => by
      rw [keepAfter] at h
      by_cases hc : pySpace c ∧ c = p
      · rw [if_pos hc] at h
        obtain ⟨b', v', hd⟩ := keepAfter_fence_transfer1 t c b v h
        exact ⟨c :: b', v', by rw [hd]; rfl⟩
      · rw [if_neg hc] at h
        cases b with
        | cons b0 b' =>
            rw [List.cons_append] at h
            injection h with h1 h2
            obtain ⟨b'', v'', hd⟩ := keepAfter_fence_transfer1 t c b' v h2
            exact ⟨b0 :: b'', v'', by rw [← h1, hd]; rfl⟩
        | nil =>
            rw [List.nil_append,
              show ("```".data ++ v : List Char) = '`' :: ('`' :: ('`' :: v)) from rfl]
              at h
            injection h with h1 h2
            subst h1
            obtain ⟨t1, ht1, hk1⟩ := keepAfter_eq_cons (by decide) h2
            obtain ⟨t2, ht2, hk2⟩ := keepAfter_eq_cons (by decide) hk1
            exact ⟨[], t2, by rw [ht1, ht2]; rfl⟩
termination_by l => l.length
decreasing_by all_goals simp_arith

/-- A fenced block in the collapse's output comes from one in its input. -/
theorem keepAfter_fence_transfer2 : ∀ (l : List Char) (p : Char)
    (u b v : List Char),
    keepAfter p l = u ++ ("```".data ++ (b ++ ("```".data ++ v))) →
    containsFencedBlock l
  | [], p, u, b, v, h => by
      have := congrArg List.length h
      simp [keepAfter] at this
      linarith
  | c :: t, p, u, b, v, h => by
      rw [keepAfter] at h
      by_cases hc : pySpace c ∧ c = p
      · rw [if_pos hc] at h
        exact containsFencedBlock_cons c (keepAfter_fence_transfer2 t c u b v h)
      · rw [if_neg hc] at h
        cases u with
        | cons u0 u' =>
            rw [List.cons_append] at h
            injection h with h1 h2
            exact containsFencedBlock_cons c (keepAfter_fence_transfer2 t c u' b v h2)
        | nil =>
            rw [List.nil_append, show ("```".data ++ (b ++ ("```".data ++ v)) : List Char) =
              '`' :: ('`' :: ('`' :: (b ++ ("```".data ++ v)))) from rfl] at h
            injection h with h1 h2
            subst h1
            obtain ⟨t1, ht1, hk1⟩ := keepAfter_eq_cons (by decide) h2
            obtain ⟨t2, ht2, hk2⟩ := keepAfter_eq_cons (by decide) hk1
            obtain ⟨b', v', hd⟩ := keepAfter_fence_transfer1 t2 '`' b v hk2
            exact ⟨[], b', v', by rw [ht1, ht2, hd]; rfl⟩
termination_by l => l.length
decreasing_by all_goals simp_arith

/-- Normalization cannot manufacture a fenced block: a block in
`normalize_text l` maps back to one in `l`. -/
theorem containsFencedBlock_of_normalized {l : List Char}
    (h : containsFencedBlock (normalize_text l)) : containsFencedBlock l := by
  obtain ⟨u, b, v, hd⟩ := h
  obtain ⟨x, y, hxy⟩ := pyStrip_infix (subWsRuns l)
  have hsub : subWsRuns l = (x ++ u) ++ ("```".data ++ (b ++ ("```".data ++ (v ++ y)))) := by
    rw [hxy]
    unfold normalize_text at hd
    rw [hd]
    simp
  rw [subWsRuns_eq_keepAfter l 'A' (by decide)] at hsub
  exact keepAfter_fence_transfer2 l 'A' (x ++ u) b (v ++ y) hsub

/-! ### Claim C1: summarize on provider output -/

/-- C1 amended: (i) when the *first* fence of the response is the json-tagged
block wrapping the compact summary/tags object — no backtick before it, and
payload strings made of plain characters without identical-whitespace runs —
`summarize` returns `{summary: S, tags: [t1, t2]}`; (ii) a response
containing no fenced block yields the empty mapping without raising;
(iii) a fenced response whose extracted payload is malformed JSON yields the
empty mapping without raising. -/
theorem summarize_spec :
    (∀ pre S t1 t2 post : List Char, backtickChar ∉ pre →
      (∀ c ∈ S, plainChar c = true) → noWsRun S →
      (∀ c ∈ t1, plainChar c = true) → noWsRun t1 →
      (∀ c ∈ t2, plainChar c = true) → noWsRun t2 →
      Summarizer.summarize
          (pre ++ ("```json".data ++ (jsonBody S t1 t2 ++ ("```".data ++ post)))) =
        summaryTagsJson S t1 t2) ∧
    (∀ text : List Char, ¬ containsFencedBlock text →
      Summarizer.summarizeBody text = .ok (.jobj []) ∧
      Summarizer.summarize text = .jobj []) ∧
    (∀ pre body post : List Char, backtickChar ∉ pre → backtickChar ∉ body →
      body ≠ [] →
      json_loads (pyStrip (keepAfter 'n' body)) = .error .jsonDecodeError →
      Summarizer.summarizeBody
          (pre ++ ("```json".data ++ (body ++ ("```".data ++ post)))) = .ok (.jobj []) ∧
      Summarizer.summarize
          (pre ++ ("```json".data ++ (body ++ ("```".data ++ post)))) = .jobj []) := by
  refine ⟨?_, ?_, ?_⟩
  · intro pre S t1 t2 post hpre hS hSr h1 h1r h2 h2r
    have hkeep : keepAfter 'n' (jsonBody S t1 t2) = jsonBody S t1 t2 :=
      keepAfter_of_cleanFrom _ 'n' (cleanFrom_jsonBody S t1 t2 hSr h1r h2r)
    have hstrip : pyStrip (jsonBody S t1 t2) = jsonBody S t1 t2 := by
      have hsh : jsonBody S t1 t2 = '{' :: (("\"summary\":\"".data ++
          (S ++ ("\",\"tags\":[\"".data ++ (t1 ++ ("\",\"".data ++
            (t2 ++ "\"]".data)))))) ++ ['}']) := by
        simp [jsonBody]
      rw [hsh]
      exact pyStrip_cons_concat '{' '}' _ (by decide) (by decide)
    unfold Summarizer.summarize Summarizer.summarizeBody
    rw [normalize_shape pre (jsonBody S t1 t2) post, hkeep,
      extract_json_shape _ _ _ (bt_not_mem_normPre hpre)
        (bt_not_mem_jsonBody hS h1 h2) (by simp [jsonBody]), hstrip]
    have hloads := json_loads_jsonBody S t1 t2 hS h1 h2
    simp only [show (jsonBody S t1 t2).isEmpty = false from rfl, Bool.false_eq_true,
      if_false, load_json, hloads]
  · intro text hnf
    have hre : reSearch (normalize_text text) = none := by
      cases hr : reSearch (normalize_text text) with
      | none => rfl
      | some m =>
          exact absurd (containsFencedBlock_of_normalized (reSearch_some_fb hr)) hnf
    have hex : extract_json (normalize_text text) = .ok none := by
      unfold extract_json
      rw [hre]
    constructor
    · unfold Summarizer.summarizeBody
      rw [hex]
    · unfold Summarizer.summarize Summarizer.summarizeBody
      rw [hex]
  · intro pre body post hpre hb hne hload
    have hB1ne : keepAfter 'n' body ≠ [] := keepAfter_ne_nil 'n' body (by decide) hne
    have hB1bt : backtickChar ∉ keepAfter 'n' body :=
      fun hm => hb (mem_of_mem_keepAfter hm)
    have hex : extract_json (normalize_text
        (pre ++ ("```json".data ++ (body ++ ("```".data ++ post))))) =
        .ok (some (pyStrip (keepAfter 'n' body))) := by
      rw [normalize_shape pre body post]
      exact extract_json_shape _ _ _ (bt_not_mem_normPre hpre) hB1bt hB1ne
    have hbody : ∀ z : Except PyExc Json,
        (match extract_json (normalize_text
          (pre ++ ("```json".data ++ (body ++ ("```".data ++ post))))) with
        | .error e => (.error e : Except PyExc Json)
        | .ok none => .ok (.jobj [])
        | .ok (some s) => if s.isEmpty then .ok (.jobj []) else .ok (load_json s)) = z →
        Summarizer.summarizeBody
          (pre ++ ("```json".data ++ (body ++ ("```".data ++ post)))) = z := by
      intro z hz
      unfold Summarizer.summarizeBody
      exact hz
    have hres : Summarizer.summarizeBody
        (pre ++ ("```json".data ++ (body ++ ("```".data ++ post)))) = .ok (.jobj []) := by
      apply hbody
      rw [hex]
      dsimp only
      by_cases hemp : (pyStrip (keepAfter 'n' body)).isEmpty = true
      · rw [if_pos hemp]
      · rw [if_neg hemp]
        unfold load_json
        rw [hload]
    refine ⟨hres, ?_⟩
    unfold Summarizer.summarize
    rw [hres]

/-- Witness instantiating all three branches of `summarize_spec` at concrete
inputs. -/
theorem summarize_spec_witness :
    Summarizer.summarize ("Sure! Here is the summary: ".data ++
        ("```json".data ++ (jsonBody "S".data "t1".data "t2".data ++
          ("```".data ++ " thanks".data)))) =
      summaryTagsJson "S".data "t1".data "t2".data ∧
    Summarizer.summarize "no block here at all".data = .jobj [] ∧
    Summarizer.summarize ([] ++ ("```json".data ++ ("not json".data ++
        ("```".data ++ [])))) = .jobj [] := by
  refine ⟨summarize_spec.1 "Sure! Here is the summary: ".data "S".data "t1".data
    "t2".data " thanks".data (by decide) (by decide) (by decide) (by decide)
    (by decide) (by decide) (by decide), ?_, ?_⟩
  · exact (summarize_spec.2.1 "no block here at all".data
      (fun h => absurd (containsFencedBlock_mem h) (by decide))).2
  · exact (summarize_spec.2.2 [] "not json".data [] (by decide) (by decide)
      (by decide) (by rfl)).2

/-- C1 counterexample: the decoy text *does* contain a fenced `json` block
whose body is exactly `{"summary":"S","tags":["t1","t2"]}`, yet `summarize`
returns the empty mapping, because the regex takes the leftmost (decoy)
fence and its body fails to parse. -/
theorem summarize_c1_counterexample :
    (∃ u v, c1DecoyText = u ++ ("```json".data ++
      (jsonBody "S".data "t1".data "t2".data ++ ("```".data ++ v)))) ∧
    Summarizer.summarize c1DecoyText = .jobj [] ∧
    Json.jobj [] ≠ summaryTagsJson "S".data "t1".data "t2".data := by
  refine ⟨⟨"```x``` ".data, [], rfl⟩, ?_, by simp [summaryTagsJson]⟩
  have hn : normalize_text c1DecoyText = pyStrip (keepAfterStart c1DecoyText) := by
    unfold normalize_text
    rw [subWsRuns_eq_keepAfterStart]
  unfold Summarizer.summarize Summarizer.summarizeBody
  rw [hn]
  rfl

/-! ### Claim C10: normalization precedes extraction -/

/-- C10: `summarize` normalizes the entire raw response before locating the
fence, so (a) whenever the fenced payload contains a run of an identical
repeated whitespace character, the extracted payload differs from (and is
shorter than) the payload the model placed inside the fence, and (b) on a
concrete response whose summary value holds a double space, the parsed
summary is the collapsed text, not the original. -/
theorem summarize_normalizes_before_extracting :
    (∀ pre body post : List Char, backtickChar ∉ pre → backtickChar ∉ body →
      body ≠ [] → ¬ noWsRun body →
      ∃ e, extract_json (normalize_text
          (pre ++ ("```json".data ++ (body ++ ("```".data ++ post))))) =
            .ok (some e) ∧
        e ≠ body ∧ e.length < body.length) ∧
    Summarizer.summarize ([] ++ ("```json".data ++
        (jsonBody "a  b".data "t1".data "t2".data ++ ("```".data ++ [])))) =
      summaryTagsJson "a b".data "t1".data "t2".data ∧
    "a b".data ≠ "a  b".data := by
  refine ⟨?_, ?_, by decide⟩
  · intro pre body post hpre hb hne hrun
    have hclean : cleanFrom 'n' body = false := by
      cases hcf : cleanFrom 'n' body with
      | false => rfl
      | true => exact absurd (noWsRun_of_cleanFrom body 'n' hcf) hrun
    have hB1ne : keepAfter 'n' body ≠ [] := keepAfter_ne_nil 'n' body (by decide) hne
    have hB1bt : backtickChar ∉ keepAfter 'n' body :=
      fun hm => hb (mem_of_mem_keepAfter hm)
    refine ⟨pyStrip (keepAfter 'n' body), ?_, ?_, ?_⟩
    · rw [normalize_shape pre body post]
      exact extract_json_shape _ _ _ (bt_not_mem_normPre hpre) hB1bt hB1ne
    · intro he
      have hlt := lt_of_le_of_lt (pyStrip_length_le (keepAfter 'n' body))
        (keepAfter_length_lt body 'n' hclean)
      rw [he] at hlt
      exact lt_irrefl _ hlt
    · exact lt_of_le_of_lt (pyStrip_length_le (keepAfter 'n' body))
        (keepAfter_length_lt body 'n' hclean)
  · have hkeep : keepAfter 'n' (jsonBody "a  b".data "t1".data "t2".data) =
        jsonBody "a b".data "t1".data "t2".data := by decide
    have hstrip : pyStrip (jsonBody "a b".data "t1".data "t2".data) =
        jsonBody "a b".data "t1".data "t2".data := by decide
    unfold Summarizer.summarize Summarizer.summarizeBody
    rw [normalize_shape [] (jsonBody "a  b".data "t1".data "t2".data) [], hkeep,
      extract_json_shape _ _ _ (by decide)
        (bt_not_mem_jsonBody (by decide) (by decide) (by decide)) (by simp [jsonBody]),
      hstrip]
    have hloads := json_loads_jsonBody "a b".data "t1".data "t2".data
      (by decide) (by decide) (by decide)
    simp only [show (jsonBody "a b".data "t1".data "t2".data).isEmpty = false from rfl,
      Bool.false_eq_true, if_false, load_json, hloads]

/-- Witness for the universal part of the C10 theorem at a concrete payload
with a doubled space. -/
theorem summarize_normalizes_witness :
    ∃ e, extract_json (normalize_text
        ([] ++ ("```json".data ++ ("\x7b\"k\":\"a  b\"\x7d".data ++ ("```".data ++ []))))) =
          .ok (some e) ∧
      e ≠ "\x7b\"k\":\"a  b\"\x7d".data ∧ e.length < "\x7b\"k\":\"a  b\"\x7d".data.length :=
  summarize_normalizes_before_extracting.1 [] "\x7b\"k\":\"a  b\"\x7d".data []
    (by decide) (by decide) (by decide) (by decide)

end NewsLLM
